import Mathlib

/-!
# Banking transaction manager: ledger core

A shallow embedding of `src/Main.cpp` (class `BankingSystem`) and the properties of its
ledger core: the account index (an unbalanced binary search tree), deposit / withdraw,
the undo stack and the fraud review queue.

Modelling conventions.
* A finite `double` is the rational it denotes (`ℚ`); `int` account numbers are `Int` (they are
  only compared, never computed with).  The comparisons of the source are exact on finite
  doubles.  The two arithmetic statements of the source, `account->balance += amount` and
  `account->balance -= amount`, are embedded twice: `depositDouble` / `withdrawDouble` round
  the result as IEEE-754 binary64 does (`doubleAdd`, `doubleSub`; they return `none` when the
  result is not finite), and `deposit` / `withdraw` compute it exactly.  The two agree whenever
  the exact result is a finite double (`depositDouble_eq_deposit`,
  `withdrawDouble_eq_withdraw`).  The statement about the arithmetic result itself is made on
  the rounding versions; the statements about lookups, guards, the undo log and the review
  queue are made on the exact versions.
* A null `AccountNode*` is the constructor `AccountNode.nil`; a non-null pointer is the node it
  points to.  A store through the pointer returned by `searchAccount` is `storeBalance`, which
  walks the same path as `searchAccount` and rewrites the balance of the node found.
* `std::stack<Transaction>` is a list whose head is the top; `std::queue<Transaction>` is a list
  whose head is the front (`push` appends at the end).
* Every method returns the new state together with the lines it writes to `cout`, as a list of
  `Output` events in the order written.
-/

namespace Bank

/-- The `Transaction` struct of the source. -/
structure Transaction where
  type : String
  amount : ℚ
  balanceBefore : ℚ
  balanceAfter : ℚ
deriving DecidableEq, Repr

/-- The `AccountNode` struct of the source: `nil` is the null pointer. -/
inductive AccountNode where
  | nil : AccountNode
  | node (accountNumber : Int) (accountHolder : String) (balance : ℚ)
      (left right : AccountNode) : AccountNode
deriving DecidableEq, Repr

/-- The lines the program writes to `cout`, one constructor per output statement. -/
inductive Output where
  /-- Prints `"Account number already exists!"` -/
  | accountNumberAlreadyExists
  /-- Prints `"Account created successfully!"` -/
  | accountCreatedSuccessfully
  /-- Prints `"Account not found!"` -/
  | accountNotFound
  /-- Prints `"Invalid deposit amount!"` -/
  | invalidDepositAmount
  /-- Prints `"*** ALERT: Large deposit detected! Transaction flagged for review. ***"` -/
  | largeDepositAlert
  /-- Prints `"Deposit successful! New balance: $" << account->balance` -/
  | depositSuccessful (newBalance : ℚ)
  /-- Prints `"Invalid withdrawal amount!"` -/
  | invalidWithdrawalAmount
  /-- Prints `"Insufficient balance!"` -/
  | insufficientBalance
  /-- Prints `"*** ALERT: Large withdrawal detected! Transaction flagged for review. ***"` -/
  | largeWithdrawalAlert
  /-- Prints `"Withdrawal successful! New balance: $" << account->balance` -/
  | withdrawalSuccessful (newBalance : ℚ)
  /-- Prints `"No transactions to undo!"` -/
  | noTransactionsToUndo
  /-- Prints `"Transaction undone! " << lastTrans.type << " of $" << lastTrans.amount << " reversed."` -/
  | transactionUndone (type : String) (amount : ℚ)
  /-- Prints `"Balance restored to: $" << account->balance` -/
  | balanceRestored (balance : ℚ)
  /-- Prints `"No suspicious transactions."` -/
  | noSuspiciousTransactions
  /-- Prints `"=== FRAUD QUEUE (Transactions Requiring Review) ==="` -/
  | fraudQueueHeader
  /-- One numbered line of `displayFraudQueue`. -/
  | fraudQueueLine (count : Nat) (type : String) (amount balanceBefore balanceAfter : ℚ)
  /-- Prints `"No accounts in the system."` -/
  | noAccounts
  /-- Prints `"=== ALL ACCOUNTS ==="` -/
  | allAccountsHeader
  /-- One line of `inorderTraversal`: account number, holder, balance. -/
  | accountLine (accountNumber : Int) (accountHolder : String) (balance : ℚ)
  /-- Prints `"Fraud detection threshold set to: $" << fraudThreshold` -/
  | thresholdSet (threshold : ℚ)
  /-- Prints `"Account #: " << account->accountNumber` (in `checkBalance`) -/
  | balanceAccountNumber (accountNumber : Int)
  /-- Prints `"Holder: " << account->accountHolder` (in `checkBalance`) -/
  | balanceHolder (accountHolder : String)
  /-- Prints `"Balance: $" << account->balance` (in `checkBalance`) -/
  | balanceAmount (balance : ℚ)
deriving DecidableEq, Repr

/-- The private members of `BankingSystem`. -/
structure BankingSystem where
  root : AccountNode
  transactionHistory : List Transaction
  fraudQueue : List Transaction
  fraudThreshold : ℚ
deriving DecidableEq, Repr

open AccountNode in
/-- `BankingSystem::insertAccount`: the tree returned, and the line printed on a duplicate. -/
def insertAccount : AccountNode → Int → String → ℚ → AccountNode × List Output
  | nil, accNum, holder, bal => (node accNum holder bal nil nil, [])
  | node k h b l r, accNum, holder, bal =>
    if accNum < k then
      (node k h b (insertAccount l accNum holder bal).1 r, (insertAccount l accNum holder bal).2)
    else if accNum > k then
      (node k h b l (insertAccount r accNum holder bal).1, (insertAccount r accNum holder bal).2)
    else
      (node k h b l r, [Output.accountNumberAlreadyExists])

open AccountNode in
/-- `BankingSystem::searchAccount`: the node found, or `nil` (the null pointer). -/
def searchAccount : AccountNode → Int → AccountNode
  | nil, _ => nil
  | node k h b l r, accNum =>
    if k = accNum then node k h b l r
    else if accNum < k then searchAccount l accNum
    else searchAccount r accNum

open AccountNode in
/-- The assignment `account->balance = v` where `account = searchAccount(root, accNum)`:
the node that `searchAccount` reaches gets balance `v`, everything else is untouched. -/
def storeBalance : AccountNode → Int → ℚ → AccountNode
  | nil, _, _ => nil
  | node k h b l r, accNum, v =>
    if k = accNum then node k h v l r
    else if accNum < k then node k h b (storeBalance l accNum v) r
    else node k h b l (storeBalance r accNum v)

open AccountNode in
/-- `BankingSystem::inorderTraversal`: the lines printed, in order. -/
def inorderTraversal : AccountNode → List Output
  | nil => []
  | node k h b l r => inorderTraversal l ++ [Output.accountLine k h b] ++ inorderTraversal r

/-- The constructor `BankingSystem()`. -/
def BankingSystem.new : BankingSystem :=
  { root := AccountNode.nil, transactionHistory := [], fraudQueue := [], fraudThreshold := 10000 }

/-- `BankingSystem::addAccount`. -/
def addAccount (s : BankingSystem) (accNum : Int) (holder : String) (initialBalance : ℚ) :
    BankingSystem × List Output :=
  ({ s with root := (insertAccount s.root accNum holder initialBalance).1 },
   (insertAccount s.root accNum holder initialBalance).2 ++ [Output.accountCreatedSuccessfully])

/-- `BankingSystem::deposit`. -/
def deposit (s : BankingSystem) (accNum : Int) (amount : ℚ) : BankingSystem × List Output :=
  match searchAccount s.root accNum with
  | AccountNode.nil => (s, [Output.accountNotFound])
  | AccountNode.node _ _ balance _ _ =>
    if amount ≤ 0 then (s, [Output.invalidDepositAmount])
    else
      let balanceBefore := balance
      let newBalance := balance + amount
      let trans : Transaction := ⟨"DEPOSIT", amount, balanceBefore, newBalance⟩
      ({ root := storeBalance s.root accNum newBalance,
         transactionHistory := trans :: s.transactionHistory,
         fraudQueue := if amount > s.fraudThreshold then s.fraudQueue ++ [trans] else s.fraudQueue,
         fraudThreshold := s.fraudThreshold },
       (if amount > s.fraudThreshold then [Output.largeDepositAlert] else [])
         ++ [Output.depositSuccessful newBalance])

/-- `BankingSystem::withdraw`. -/
def withdraw (s : BankingSystem) (accNum : Int) (amount : ℚ) : BankingSystem × List Output :=
  match searchAccount s.root accNum with
  | AccountNode.nil => (s, [Output.accountNotFound])
  | AccountNode.node _ _ balance _ _ =>
    if amount ≤ 0 then (s, [Output.invalidWithdrawalAmount])
    else if balance < amount then (s, [Output.insufficientBalance])
    else
      let balanceBefore := balance
      let newBalance := balance - amount
      let trans : Transaction := ⟨"WITHDRAW", amount, balanceBefore, newBalance⟩
      ({ root := storeBalance s.root accNum newBalance,
         transactionHistory := trans :: s.transactionHistory,
         fraudQueue := if amount > s.fraudThreshold then s.fraudQueue ++ [trans] else s.fraudQueue,
         fraudThreshold := s.fraudThreshold },
       (if amount > s.fraudThreshold then [Output.largeWithdrawalAlert] else [])
         ++ [Output.withdrawalSuccessful newBalance])

/-- `BankingSystem::undoLastTransaction`. -/
def undoLastTransaction (s : BankingSystem) (accNum : Int) : BankingSystem × List Output :=
  match s.transactionHistory with
  | [] => (s, [Output.noTransactionsToUndo])
  | lastTrans :: rest =>
    match searchAccount s.root accNum with
    | AccountNode.nil => (s, [Output.accountNotFound])
    | AccountNode.node _ _ _ _ _ =>
      ({ root := storeBalance s.root accNum lastTrans.balanceBefore,
         transactionHistory := rest,
         fraudQueue := s.fraudQueue,
         fraudThreshold := s.fraudThreshold },
       [Output.transactionUndone lastTrans.type lastTrans.amount,
        Output.balanceRestored lastTrans.balanceBefore])

/-- The `while` loop of `displayFraudQueue` over the copy `tempQueue`, `count` being the
number of the next line. -/
def fraudQueueLines : List Transaction → Nat → List Output
  | [], _ => []
  | t :: tempQueue, count =>
    Output.fraudQueueLine count t.type t.amount t.balanceBefore t.balanceAfter
      :: fraudQueueLines tempQueue (count + 1)

/-- `BankingSystem::displayFraudQueue`. -/
def displayFraudQueue (s : BankingSystem) : BankingSystem × List Output :=
  match s.fraudQueue with
  | [] => (s, [Output.noSuspiciousTransactions])
  | t :: q => (s, Output.fraudQueueHeader :: fraudQueueLines (t :: q) 1)

/-- `BankingSystem::displayAllAccounts`. -/
def displayAllAccounts (s : BankingSystem) : BankingSystem × List Output :=
  match s.root with
  | AccountNode.nil => (s, [Output.noAccounts])
  | AccountNode.node k h b l r =>
    (s, Output.allAccountsHeader :: inorderTraversal (AccountNode.node k h b l r))

/-- `BankingSystem::setFraudThreshold`. -/
def setFraudThreshold (s : BankingSystem) (threshold : ℚ) : BankingSystem × List Output :=
  ({ s with fraudThreshold := threshold }, [Output.thresholdSet threshold])

/-- `BankingSystem::checkBalance`. -/
def checkBalance (s : BankingSystem) (accNum : Int) : BankingSystem × List Output :=
  match searchAccount s.root accNum with
  | AccountNode.nil => (s, [Output.accountNotFound])
  | AccountNode.node accountNumber accountHolder balance _ _ =>
    (s, [Output.balanceAccountNumber accountNumber, Output.balanceHolder accountHolder,
         Output.balanceAmount balance])

/-- The account record (number, holder, balance) held by a node pointer; `none` for null. -/
def AccountNode.record : AccountNode → Option (Int × String × ℚ)
  | AccountNode.nil => none
  | AccountNode.node k h b _ _ => some (k, h, b)

/-- The account that `searchAccount` finds for `accNum`, as a record. -/
def findAccount (root : AccountNode) (accNum : Int) : Option (Int × String × ℚ) :=
  (searchAccount root accNum).record

/-- The balance of the account that `searchAccount` finds for `accNum`. -/
def balanceOf (root : AccountNode) (accNum : Int) : Option ℚ :=
  (findAccount root accNum).map (fun a => a.2.2)

/-- The number of nodes of the index. -/
def AccountNode.size : AccountNode → Nat
  | AccountNode.nil => 0
  | AccountNode.node _ _ _ l r => l.size + 1 + r.size

/-- The account numbers printed by a list of `inorderTraversal` lines, in order. -/
def accountNumbers (lines : List Output) : List Int :=
  lines.filterMap fun o =>
    match o with
    | Output.accountLine k _ _ => some k
    | _ => none

/-- The account numbers stored in the index, left subtree first, then the node, then the
right subtree. -/
def AccountNode.keys : AccountNode → List Int
  | AccountNode.nil => []
  | AccountNode.node k _ _ l r => l.keys ++ k :: r.keys

/-- The binary-search ordering property: in every node, the account numbers of the left
subtree are smaller than the node's and those of the right subtree are larger. -/
def AccountNode.ordered : AccountNode → Prop
  | AccountNode.nil => True
  | AccountNode.node k _ _ l r =>
    (∀ x ∈ l.keys, x < k) ∧ (∀ x ∈ r.keys, k < x) ∧ l.ordered ∧ r.ordered

/-- The ordering property can be checked by running over the tree. -/
def AccountNode.decideOrdered : (t : AccountNode) → Decidable t.ordered
  | AccountNode.nil => isTrue trivial
  | AccountNode.node k _ _ l r =>
    let _ := AccountNode.decideOrdered l
    let _ := AccountNode.decideOrdered r
    inferInstanceAs
      (Decidable ((∀ x ∈ l.keys, x < k) ∧ (∀ x ∈ r.keys, k < x) ∧ l.ordered ∧ r.ordered))

instance AccountNode.decidableOrdered : DecidablePred AccountNode.ordered :=
  AccountNode.decideOrdered

/-- A sequence of `addAccount` calls, run from left to right. -/
def addAccounts (s : BankingSystem) : List (Int × String × ℚ) → BankingSystem
  | [] => s
  | (accNum, holder, bal) :: calls => addAccounts (addAccount s accNum holder bal).1 calls

/-- A ledger with three accounts, inserted in the order 101, 50, 150. -/
def sampleLedger : BankingSystem :=
  addAccounts BankingSystem.new [(101, "Ann", 500), (50, "Bob", -5), (150, "Cy", 20000)]

/-- The lines that report a rejected operation: "Account not found!", "Invalid deposit
amount!", "Invalid withdrawal amount!", "Insufficient balance!", "No transactions to undo!". -/
def Output.isFailure : Output → Bool
  | Output.accountNotFound => true
  | Output.invalidDepositAmount => true
  | Output.invalidWithdrawalAmount => true
  | Output.insufficientBalance => true
  | Output.noTransactionsToUndo => true
  | _ => false

/-- The entries shown by a list of `displayFraudQueue` lines, in the order printed. -/
def fraudQueueEntries (lines : List Output) : List Transaction :=
  lines.filterMap fun o =>
    match o with
    | Output.fraudQueueLine _ type amount balanceBefore balanceAfter =>
      some ⟨type, amount, balanceBefore, balanceAfter⟩
    | _ => none

/-- The tree with every balance erased: its shape, account numbers and holders. -/
def AccountNode.skeleton : AccountNode → AccountNode
  | AccountNode.nil => AccountNode.nil
  | AccountNode.node k h _ l r => AccountNode.node k h 0 l.skeleton r.skeleton

/-- The balances stored in the index, in the order of `AccountNode.keys`. -/
def AccountNode.balances : AccountNode → List ℚ
  | AccountNode.nil => []
  | AccountNode.node _ _ b l r => l.balances ++ b :: r.balances

/-- The calls that the menu loop of `main` makes on the `BankingSystem` (choices 1 to 8). -/
inductive Op where
  | addAccount (accNum : Int) (holder : String) (initialBalance : ℚ)
  | deposit (accNum : Int) (amount : ℚ)
  | withdraw (accNum : Int) (amount : ℚ)
  | checkBalance (accNum : Int)
  | undoLastTransaction (accNum : Int)
  | displayFraudQueue
  | displayAllAccounts
  | setFraudThreshold (threshold : ℚ)
deriving DecidableEq, Repr

/-- One iteration of the menu loop: the `switch (choice)` of `main`. -/
def step (s : BankingSystem) : Op → BankingSystem × List Output
  | Op.addAccount accNum holder initialBalance => addAccount s accNum holder initialBalance
  | Op.deposit accNum amount => deposit s accNum amount
  | Op.withdraw accNum amount => withdraw s accNum amount
  | Op.checkBalance accNum => checkBalance s accNum
  | Op.undoLastTransaction accNum => undoLastTransaction s accNum
  | Op.displayFraudQueue => displayFraudQueue s
  | Op.displayAllAccounts => displayAllAccounts s
  | Op.setFraudThreshold threshold => setFraudThreshold s threshold

/-- The state after a sequence of calls, run from left to right. -/
def run (s : BankingSystem) : List Op → BankingSystem
  | [] => s
  | op :: ops => run (step s op).1 ops

/-- The initial balance of an `addAccount` call is non-negative (other calls: no condition). -/
def Op.nonnegInitialBalance : Op → Prop
  | Op.addAccount _ _ initialBalance => 0 ≤ initialBalance
  | _ => True

instance Op.decidableNonnegInitialBalance : DecidablePred Op.nonnegInitialBalance := fun op =>
  match op with
  | Op.addAccount _ _ initialBalance => inferInstanceAs (Decidable (0 ≤ initialBalance))
  | Op.deposit _ _ => isTrue trivial
  | Op.withdraw _ _ => isTrue trivial
  | Op.checkBalance _ => isTrue trivial
  | Op.undoLastTransaction _ => isTrue trivial
  | Op.displayFraudQueue => isTrue trivial
  | Op.displayAllAccounts => isTrue trivial
  | Op.setFraudThreshold _ => isTrue trivial

/-- A sequence of deposit (`true`) and withdraw (`false`) calls, all on account `accNum`. -/
def accountCalls (accNum : Int) (calls : List (Bool × ℚ)) : List Op :=
  calls.map fun c => if c.1 then Op.deposit accNum c.2 else Op.withdraw accNum c.2

/-- The number of calls of a sequence that succeed (print no failure line), each call being
made on the state left by the calls before it. -/
def successCount (s : BankingSystem) : List Op → Nat
  | [] => 0
  | op :: ops =>
    (if (step s op).2.any Output.isFailure then 0 else 1) + successCount (step s op).1 ops

/-- Running `undoLastTransaction accNum` `k` times in a row: the final state and the lines
printed by each call, first call first. -/
def undoTimes (s : BankingSystem) (accNum : Int) : Nat → BankingSystem × List (List Output)
  | 0 => (s, [])
  | k + 1 =>
    ((undoTimes (undoLastTransaction s accNum).1 accNum k).1,
     (undoLastTransaction s accNum).2 :: (undoTimes (undoLastTransaction s accNum).1 accNum k).2)

/-- A session on a fresh ledger in which each undo names the account that did not produce
the entry it pops. -/
def sampleSession : List Op :=
  [Op.addAccount 1 "A" 100, Op.addAccount 2 "B" 0, Op.deposit 1 50, Op.setFraudThreshold 10,
   Op.withdraw 1 150, Op.deposit 2 30, Op.undoLastTransaction 1, Op.undoLastTransaction 2]

/-- The integer nearest to `q`, the even one when `q` lies halfway between two integers. -/
def roundHalfEven (q : ℚ) : ℤ :=
  if q - ⌊q⌋ < 1 / 2 then ⌊q⌋
  else if 1 / 2 < q - ⌊q⌋ then ⌊q⌋ + 1
  else if ⌊q⌋ % 2 = 0 then ⌊q⌋ else ⌊q⌋ + 1

/-- The `double` nearest to `x` (IEEE-754 binary64: 53 significant bits, least exponent
-1022, round to nearest, ties to even); `none` when the rounded value is `2 ^ 1024` or more in
absolute value, where the machine gives an infinity. -/
def roundBinary64 (x : ℚ) : Option ℚ :=
  let e : ℤ := max (Int.log 2 |x|) (-1022)
  let r : ℚ := roundHalfEven (x / 2 ^ (e - 52)) * 2 ^ (e - 52)
  if |r| < 2 ^ (1024 : ℤ) then some r else none

/-- The sum `x + y` as the `double` addition computes it. -/
def doubleAdd (x y : ℚ) : Option ℚ := roundBinary64 (x + y)

/-- The difference `x - y` as the `double` subtraction computes it. -/
def doubleSub (x y : ℚ) : Option ℚ := roundBinary64 (x - y)

/-- `BankingSystem::deposit` with `account->balance += amount` rounded as a `double`; `none`
when the new balance is not finite. -/
def depositDouble (s : BankingSystem) (accNum : Int) (amount : ℚ) :
    Option (BankingSystem × List Output) :=
  match searchAccount s.root accNum with
  | AccountNode.nil => some (s, [Output.accountNotFound])
  | AccountNode.node _ _ balance _ _ =>
    if amount ≤ 0 then some (s, [Output.invalidDepositAmount])
    else
      match doubleAdd balance amount with
      | none => none
      | some newBalance =>
        some
          ({ root := storeBalance s.root accNum newBalance,
             transactionHistory := ⟨"DEPOSIT", amount, balance, newBalance⟩ :: s.transactionHistory,
             fraudQueue :=
               if amount > s.fraudThreshold
               then s.fraudQueue ++ [⟨"DEPOSIT", amount, balance, newBalance⟩]
               else s.fraudQueue,
             fraudThreshold := s.fraudThreshold },
           (if amount > s.fraudThreshold then [Output.largeDepositAlert] else [])
             ++ [Output.depositSuccessful newBalance])

/-- `BankingSystem::withdraw` with `account->balance -= amount` rounded as a `double`; `none`
when the new balance is not finite. -/
def withdrawDouble (s : BankingSystem) (accNum : Int) (amount : ℚ) :
    Option (BankingSystem × List Output) :=
  match searchAccount s.root accNum with
  | AccountNode.nil => some (s, [Output.accountNotFound])
  | AccountNode.node _ _ balance _ _ =>
    if amount ≤ 0 then some (s, [Output.invalidWithdrawalAmount])
    else if balance < amount then some (s, [Output.insufficientBalance])
    else
      match doubleSub balance amount with
      | none => none
      | some newBalance =>
        some
          ({ root := storeBalance s.root accNum newBalance,
             transactionHistory :=
               ⟨"WITHDRAW", amount, balance, newBalance⟩ :: s.transactionHistory,
             fraudQueue :=
               if amount > s.fraudThreshold
               then s.fraudQueue ++ [⟨"WITHDRAW", amount, balance, newBalance⟩]
               else s.fraudQueue,
             fraudThreshold := s.fraudThreshold },
           (if amount > s.fraudThreshold then [Output.largeWithdrawalAlert] else [])
             ++ [Output.withdrawalSuccessful newBalance])

theorem findAccount_nil (n : Int) : findAccount AccountNode.nil n = none := rfl

theorem findAccount_node (k : Int) (h : String) (b : ℚ) (l r : AccountNode) (n : Int) :
    findAccount (AccountNode.node k h b l r) n =
      if k = n then some (k, h, b) else if n < k then findAccount l n else findAccount r n := by
  unfold findAccount
  simp only [searchAccount]
  split_ifs <;> rfl

theorem findAccount_eq_none_iff (t : AccountNode) (n : Int) :
    findAccount t n = none ↔ searchAccount t n = AccountNode.nil := by
  unfold findAccount
  cases searchAccount t n <;> simp [AccountNode.record]

theorem findAccount_key (t : AccountNode) (n k : Int) (h : String) (b : ℚ)
    (hf : findAccount t n = some (k, h, b)) : k = n := by
  induction t with
  | nil => simp [findAccount_nil] at hf
  | node k0 h0 b0 l r ihl ihr =>
    rw [findAccount_node] at hf
    split_ifs at hf with h1 h2
    · simp only [Option.some.injEq, Prod.mk.injEq] at hf
      omega
    · exact ihl hf
    · exact ihr hf

theorem findAccount_storeBalance_same (t : AccountNode) (n : Int) (v : ℚ) :
    findAccount (storeBalance t n v) n = (findAccount t n).map (fun a => (a.1, a.2.1, v)) := by
  induction t with
  | nil => rfl
  | node k h b l r ihl ihr =>
    simp only [storeBalance]
    split_ifs with h1 h2
    · simp [findAccount_node, h1]
    · simp [findAccount_node, h1, h2, ihl]
    · simp [findAccount_node, h1, h2, ihr]

theorem findAccount_storeBalance_other (t : AccountNode) (n m : Int) (v : ℚ) (hm : m ≠ n) :
    findAccount (storeBalance t n v) m = findAccount t m := by
  induction t with
  | nil => rfl
  | node k h b l r ihl ihr =>
    simp only [storeBalance]
    split_ifs with h1 h2
    · have : ¬ k = m := by omega
      simp [findAccount_node, this]
    · simp [findAccount_node, ihl]
    · simp [findAccount_node, ihr]

theorem balanceOf_storeBalance_same (t : AccountNode) (n : Int) (v P : ℚ)
    (hP : balanceOf t n = some P) : balanceOf (storeBalance t n v) n = some v := by
  unfold balanceOf at *
  rw [findAccount_storeBalance_same]
  cases hf : findAccount t n with
  | none => simp [hf] at hP
  | some a => simp

theorem storeBalance_storeBalance (t : AccountNode) (n : Int) (v w : ℚ) :
    storeBalance (storeBalance t n v) n w = storeBalance t n w := by
  induction t with
  | nil => rfl
  | node k h b l r ihl ihr =>
    simp only [storeBalance]
    split_ifs with h1 h2
    · simp [storeBalance, h1]
    · simp [storeBalance, h1, h2, ihl]
    · simp [storeBalance, h1, h2, ihr]

theorem storeBalance_self (t : AccountNode) (n : Int) (P : ℚ)
    (hP : balanceOf t n = some P) : storeBalance t n P = t := by
  induction t with
  | nil => rfl
  | node k h b l r ihl ihr =>
    unfold balanceOf at hP ihl ihr
    rw [findAccount_node] at hP
    simp only [storeBalance]
    split_ifs at hP ⊢ with h1 h2
    · simp only [Option.map_some', Option.some.injEq] at hP
      rw [hP]
    · rw [ihl hP]
    · rw [ihr hP]

theorem searchAccount_of_balanceOf (t : AccountNode) (n : Int) (P : ℚ)
    (hP : balanceOf t n = some P) :
    ∃ h l r, searchAccount t n = AccountNode.node n h P l r := by
  unfold balanceOf at hP
  cases hs : searchAccount t n with
  | nil =>
    have := (findAccount_eq_none_iff t n).2 hs
    simp [this] at hP
  | node k h b l r =>
    have hf : findAccount t n = some (k, h, b) := by
      unfold findAccount
      rw [hs]
      rfl
    have hk := findAccount_key t n k h b hf
    rw [hf] at hP
    simp only [Option.map_some', Option.some.injEq] at hP
    exact ⟨h, l, r, by rw [hk, hP]⟩

theorem insertAccount_of_present (t : AccountNode) (k : Int) (h : String) (b : ℚ)
    (hk : findAccount t k ≠ none) :
    insertAccount t k h b = (t, [Output.accountNumberAlreadyExists]) := by
  induction t with
  | nil => exact absurd (findAccount_nil k) hk
  | node k0 h0 b0 l r ihl ihr =>
    rw [findAccount_node] at hk
    simp only [insertAccount]
    split_ifs at hk with h1 h2
    · have hlt : ¬ k < k0 := by omega
      have hgt : ¬ k > k0 := by omega
      simp only [hlt, hgt, if_false]
    · simp only [h2, if_true, ihl hk]
    · have hgt : k > k0 := by omega
      simp only [h2, hgt, if_false, if_true, ihr hk]

theorem insertAccount_output_of_absent (t : AccountNode) (k : Int) (h : String) (b : ℚ)
    (hk : findAccount t k = none) : (insertAccount t k h b).2 = [] := by
  induction t with
  | nil => rfl
  | node k0 h0 b0 l r ihl ihr =>
    rw [findAccount_node] at hk
    simp only [insertAccount]
    split_ifs at hk with h1 h2
    · simp only [h2, if_true, ihl hk]
    · have hgt : k > k0 := by omega
      simp only [h2, hgt, if_false, if_true, ihr hk]

theorem findAccount_insertAccount (t : AccountNode) (k : Int) (h : String) (b : ℚ) (j : Int) :
    findAccount (insertAccount t k h b).1 j =
      if j = k ∧ findAccount t k = none then some (k, h, b) else findAccount t j := by
  induction t with
  | nil =>
    simp only [insertAccount, findAccount_node, findAccount_nil, and_true]
    by_cases hj : j = k
    · simp [hj]
    · have : ¬ k = j := fun e => hj e.symm
      simp [hj, this]
  | node k0 h0 b0 l r ihl ihr =>
    simp only [insertAccount]
    by_cases h1 : k < k0
    · simp only [h1, if_true]
      have hk0 : ¬ k0 = k := by omega
      rw [findAccount_node, ihl, findAccount_node k0 h0 b0 l r k, findAccount_node k0 h0 b0 l r j]
      simp only [hk0, if_false, h1, if_true]
      by_cases hj : j = k
      · subst hj
        simp [hk0, h1]
      · simp only [hj, false_and, if_false]
    · by_cases h2 : k > k0
      · simp only [h1, h2, if_false, if_true]
        have hk0 : ¬ k0 = k := by omega
        rw [findAccount_node, ihr, findAccount_node k0 h0 b0 l r k,
          findAccount_node k0 h0 b0 l r j]
        simp only [hk0, if_false, h1]
        by_cases hj : j = k
        · subst hj
          simp [hk0, h1]
        · simp only [hj, false_and, if_false]
      · simp only [h1, h2, if_false]
        have hk0 : k0 = k := by omega
        have : findAccount (AccountNode.node k0 h0 b0 l r) k ≠ none := by
          rw [findAccount_node]; simp [hk0]
        simp [this]

/-! ## The ordering property and the in-order traversal -/

theorem accountNumbers_inorderTraversal (t : AccountNode) :
    accountNumbers (inorderTraversal t) = t.keys := by
  induction t with
  | nil => rfl
  | node k h b l r ihl ihr =>
    unfold accountNumbers at ihl ihr ⊢
    simp only [inorderTraversal, List.filterMap_append, ihl, ihr, AccountNode.keys]
    simp

theorem accountNumbers_displayAllAccounts (s : BankingSystem) :
    accountNumbers (displayAllAccounts s).2 = accountNumbers (inorderTraversal s.root) := by
  unfold displayAllAccounts
  cases hr : s.root with
  | nil => rfl
  | node k h b l r => simp [accountNumbers]

theorem length_inorderTraversal (t : AccountNode) :
    (inorderTraversal t).length = t.size := by
  induction t with
  | nil => rfl
  | node k h b l r ihl ihr =>
    simp only [inorderTraversal, List.length_append, ihl, ihr, AccountNode.size]
    rfl

theorem mem_keys_insertAccount (t : AccountNode) (k : Int) (h : String) (b : ℚ) (x : Int) :
    x ∈ (insertAccount t k h b).1.keys ↔ x = k ∨ x ∈ t.keys := by
  induction t with
  | nil => simp [insertAccount, AccountNode.keys]
  | node k0 h0 b0 l r ihl ihr =>
    simp only [insertAccount]
    split_ifs with h1 h2
    · simp only [AccountNode.keys, List.mem_append, List.mem_cons, ihl]
      tauto
    · simp only [AccountNode.keys, List.mem_append, List.mem_cons, ihr]
      tauto
    · have : k = k0 := by omega
      subst this
      simp only [AccountNode.keys, List.mem_append, List.mem_cons]
      tauto

theorem ordered_insertAccount (t : AccountNode) (k : Int) (h : String) (b : ℚ)
    (ht : t.ordered) : (insertAccount t k h b).1.ordered := by
  induction t with
  | nil => simp [insertAccount, AccountNode.ordered, AccountNode.keys]
  | node k0 h0 b0 l r ihl ihr =>
    obtain ⟨hl, hr, ol, or⟩ := ht
    simp only [insertAccount]
    split_ifs with h1 h2
    · refine ⟨fun x hx => ?_, hr, ihl ol, or⟩
      rcases (mem_keys_insertAccount l k h b x).1 hx with rfl | hx
      · exact h1
      · exact hl x hx
    · refine ⟨hl, fun x hx => ?_, ol, ihr or⟩
      rcases (mem_keys_insertAccount r k h b x).1 hx with rfl | hx
      · exact h2
      · exact hr x hx
    · exact ⟨hl, hr, ol, or⟩

theorem sorted_keys_of_ordered (t : AccountNode) (ht : t.ordered) :
    t.keys.Sorted (· < ·) := by
  induction t with
  | nil => simp [AccountNode.keys]
  | node k h b l r ihl ihr =>
    obtain ⟨hl, hr, ol, or⟩ := ht
    simp only [AccountNode.keys, List.Sorted, List.pairwise_append, List.pairwise_cons,
      List.mem_cons]
    refine ⟨ihl ol, ⟨hr, ihr or⟩, fun x hx y hy => ?_⟩
    rcases hy with rfl | hy
    · exact hl x hx
    · exact lt_trans (hl x hx) (hr y hy)

theorem ordered_addAccounts (calls : List (Int × String × ℚ)) (s : BankingSystem)
    (hs : s.root.ordered) : (addAccounts s calls).root.ordered := by
  induction calls generalizing s with
  | nil => exact hs
  | cons c calls ih =>
    obtain ⟨k, h, b⟩ := c
    exact ih _ (ordered_insertAccount s.root k h b hs)

theorem mem_keys_addAccounts (calls : List (Int × String × ℚ)) (s : BankingSystem) (x : Int) :
    x ∈ (addAccounts s calls).root.keys ↔ x ∈ s.root.keys ∨ x ∈ calls.map (fun c => c.1) := by
  induction calls generalizing s with
  | nil => simp [addAccounts]
  | cons c calls ih =>
    obtain ⟨k, h, b⟩ := c
    simp only [addAccounts, ih, addAccount, mem_keys_insertAccount, List.map_cons,
      List.mem_cons]
    tauto

/-! ## Evaluation of the ledger operations -/

theorem deposit_eq_of_balanceOf (s : BankingSystem) (n : Int) (a P : ℚ)
    (hP : balanceOf s.root n = some P) (ha : 0 < a) :
    deposit s n a =
      ({ root := storeBalance s.root n (P + a),
         transactionHistory := ⟨"DEPOSIT", a, P, P + a⟩ :: s.transactionHistory,
         fraudQueue := if a > s.fraudThreshold
           then s.fraudQueue ++ [⟨"DEPOSIT", a, P, P + a⟩] else s.fraudQueue,
         fraudThreshold := s.fraudThreshold },
       (if a > s.fraudThreshold then [Output.largeDepositAlert] else [])
         ++ [Output.depositSuccessful (P + a)]) := by
  obtain ⟨h, l, r, hs⟩ := searchAccount_of_balanceOf s.root n P hP
  unfold deposit
  rw [hs]
  simp only [not_le.mpr ha, if_false]

theorem withdraw_eq_of_balanceOf (s : BankingSystem) (n : Int) (a P : ℚ)
    (hP : balanceOf s.root n = some P) (ha : 0 < a) (hle : a ≤ P) :
    withdraw s n a =
      ({ root := storeBalance s.root n (P - a),
         transactionHistory := ⟨"WITHDRAW", a, P, P - a⟩ :: s.transactionHistory,
         fraudQueue := if a > s.fraudThreshold
           then s.fraudQueue ++ [⟨"WITHDRAW", a, P, P - a⟩] else s.fraudQueue,
         fraudThreshold := s.fraudThreshold },
       (if a > s.fraudThreshold then [Output.largeWithdrawalAlert] else [])
         ++ [Output.withdrawalSuccessful (P - a)]) := by
  obtain ⟨h, l, r, hs⟩ := searchAccount_of_balanceOf s.root n P hP
  unfold withdraw
  rw [hs]
  simp only [not_le.mpr ha, not_lt.mpr hle, if_false]

theorem undo_eq_of_balanceOf (s : BankingSystem) (n : Int) (P : ℚ) (e : Transaction)
    (rest : List Transaction) (hP : balanceOf s.root n = some P)
    (hlog : s.transactionHistory = e :: rest) :
    undoLastTransaction s n =
      ({ root := storeBalance s.root n e.balanceBefore,
         transactionHistory := rest,
         fraudQueue := s.fraudQueue,
         fraudThreshold := s.fraudThreshold },
       [Output.transactionUndone e.type e.amount, Output.balanceRestored e.balanceBefore]) := by
  obtain ⟨h, l, r, hs⟩ := searchAccount_of_balanceOf s.root n P hP
  unfold undoLastTransaction
  rw [hlog]
  simp only [hs]

theorem deposit_eq_of_absent (s : BankingSystem) (n : Int) (a : ℚ)
    (hn : findAccount s.root n = none) : deposit s n a = (s, [Output.accountNotFound]) := by
  unfold deposit
  rw [(findAccount_eq_none_iff s.root n).1 hn]

theorem withdraw_eq_of_absent (s : BankingSystem) (n : Int) (a : ℚ)
    (hn : findAccount s.root n = none) : withdraw s n a = (s, [Output.accountNotFound]) := by
  unfold withdraw
  rw [(findAccount_eq_none_iff s.root n).1 hn]

theorem checkBalance_eq_of_absent (s : BankingSystem) (n : Int)
    (hn : findAccount s.root n = none) : checkBalance s n = (s, [Output.accountNotFound]) := by
  unfold checkBalance
  rw [(findAccount_eq_none_iff s.root n).1 hn]

theorem searchAccount_of_findAccount (t : AccountNode) (n k : Int) (h : String) (b : ℚ)
    (hf : findAccount t n = some (k, h, b)) :
    ∃ l r, searchAccount t n = AccountNode.node k h b l r := by
  unfold findAccount at hf
  cases hs : searchAccount t n with
  | nil => rw [hs] at hf; simp [AccountNode.record] at hf
  | node k0 h0 b0 l r =>
    rw [hs] at hf
    simp only [AccountNode.record, Option.some.injEq, Prod.mk.injEq] at hf
    obtain ⟨rfl, rfl, rfl⟩ := hf
    exact ⟨l, r, rfl⟩

theorem exists_findAccount_of_ne_none (t : AccountNode) (n : Int)
    (hn : findAccount t n ≠ none) : ∃ h b, findAccount t n = some (n, h, b) := by
  cases hf : findAccount t n with
  | none => exact absurd hf hn
  | some a =>
    obtain ⟨k, h, b⟩ := a
    have hk := findAccount_key t n k h b hf
    subst hk
    exact ⟨h, b, rfl⟩

theorem deposit_eq_of_nonpos (s : BankingSystem) (n : Int) (a : ℚ)
    (hn : findAccount s.root n ≠ none) (ha : a ≤ 0) :
    deposit s n a = (s, [Output.invalidDepositAmount]) := by
  obtain ⟨h, b, hf⟩ := exists_findAccount_of_ne_none s.root n hn
  obtain ⟨l, r, hs⟩ := searchAccount_of_findAccount s.root n n h b hf
  unfold deposit
  rw [hs]
  simp only [ha, if_true]

theorem withdraw_eq_of_nonpos (s : BankingSystem) (n : Int) (a : ℚ)
    (hn : findAccount s.root n ≠ none) (ha : a ≤ 0) :
    withdraw s n a = (s, [Output.invalidWithdrawalAmount]) := by
  obtain ⟨h, b, hf⟩ := exists_findAccount_of_ne_none s.root n hn
  obtain ⟨l, r, hs⟩ := searchAccount_of_findAccount s.root n n h b hf
  unfold withdraw
  rw [hs]
  simp only [ha, if_true]

theorem withdraw_eq_of_insufficient (s : BankingSystem) (n : Int) (a P : ℚ)
    (hP : balanceOf s.root n = some P) (ha : 0 < a) (hlt : P < a) :
    withdraw s n a = (s, [Output.insufficientBalance]) := by
  obtain ⟨h, l, r, hs⟩ := searchAccount_of_balanceOf s.root n P hP
  unfold withdraw
  rw [hs]
  simp only [not_le.mpr ha, hlt, if_false, if_true]

theorem findAccount_addAccounts_from (calls : List (Int × String × ℚ)) (s : BankingSystem)
    (k : Int) :
    findAccount (addAccounts s calls).root k =
      match findAccount s.root k with
      | some a => some a
      | none => calls.find? (fun c => decide (c.1 = k)) := by
  induction calls generalizing s with
  | nil =>
    simp only [addAccounts]
    cases hf : findAccount s.root k <;> simp
  | cons c calls ih =>
    obtain ⟨k0, h0, b0⟩ := c
    simp only [addAccounts, ih, addAccount, findAccount_insertAccount, List.find?_cons]
    by_cases hk : k = k0
    · subst hk
      cases hf : findAccount s.root k <;> simp
    · have hk2 : ¬ k0 = k := fun e => hk e.symm
      simp only [hk, false_and, if_false, hk2, decide_False]

theorem balanceOf_of_findAccount (t : AccountNode) (n k : Int) (h : String) (b : ℚ)
    (hf : findAccount t n = some (k, h, b)) : balanceOf t n = some b := by
  unfold balanceOf
  rw [hf]
  rfl

theorem findAccount_ne_none_of_balanceOf (t : AccountNode) (n : Int) (P : ℚ)
    (hP : balanceOf t n = some P) : findAccount t n ≠ none := by
  intro hf
  unfold balanceOf at hP
  rw [hf] at hP
  simp at hP

theorem exists_balanceOf_of_ne_none (t : AccountNode) (n : Int)
    (hn : findAccount t n ≠ none) : ∃ P, balanceOf t n = some P := by
  obtain ⟨h, b, hf⟩ := exists_findAccount_of_ne_none t n hn
  exact ⟨b, balanceOf_of_findAccount t n n h b hf⟩

/-- The three ways `deposit` can go. -/
theorem deposit_cases (s : BankingSystem) (n : Int) (a : ℚ) :
    (findAccount s.root n = none ∧ deposit s n a = (s, [Output.accountNotFound]))
    ∨ (findAccount s.root n ≠ none ∧ a ≤ 0 ∧ deposit s n a = (s, [Output.invalidDepositAmount]))
    ∨ (∃ P, balanceOf s.root n = some P ∧ 0 < a ∧
        deposit s n a =
          ({ root := storeBalance s.root n (P + a),
             transactionHistory := ⟨"DEPOSIT", a, P, P + a⟩ :: s.transactionHistory,
             fraudQueue := if a > s.fraudThreshold
               then s.fraudQueue ++ [⟨"DEPOSIT", a, P, P + a⟩] else s.fraudQueue,
             fraudThreshold := s.fraudThreshold },
           (if a > s.fraudThreshold then [Output.largeDepositAlert] else [])
             ++ [Output.depositSuccessful (P + a)])) := by
  by_cases hn : findAccount s.root n = none
  · exact Or.inl ⟨hn, deposit_eq_of_absent s n a hn⟩
  · by_cases ha : a ≤ 0
    · exact Or.inr (Or.inl ⟨hn, ha, deposit_eq_of_nonpos s n a hn ha⟩)
    · obtain ⟨P, hP⟩ := exists_balanceOf_of_ne_none s.root n hn
      exact Or.inr (Or.inr ⟨P, hP, not_le.mp ha,
        deposit_eq_of_balanceOf s n a P hP (not_le.mp ha)⟩)

/-- The four ways `withdraw` can go. -/
theorem withdraw_cases (s : BankingSystem) (n : Int) (a : ℚ) :
    (findAccount s.root n = none ∧ withdraw s n a = (s, [Output.accountNotFound]))
    ∨ (findAccount s.root n ≠ none ∧ a ≤ 0
        ∧ withdraw s n a = (s, [Output.invalidWithdrawalAmount]))
    ∨ (∃ P, balanceOf s.root n = some P ∧ 0 < a ∧ P < a
        ∧ withdraw s n a = (s, [Output.insufficientBalance]))
    ∨ (∃ P, balanceOf s.root n = some P ∧ 0 < a ∧ a ≤ P ∧
        withdraw s n a =
          ({ root := storeBalance s.root n (P - a),
             transactionHistory := ⟨"WITHDRAW", a, P, P - a⟩ :: s.transactionHistory,
             fraudQueue := if a > s.fraudThreshold
               then s.fraudQueue ++ [⟨"WITHDRAW", a, P, P - a⟩] else s.fraudQueue,
             fraudThreshold := s.fraudThreshold },
           (if a > s.fraudThreshold then [Output.largeWithdrawalAlert] else [])
             ++ [Output.withdrawalSuccessful (P - a)])) := by
  by_cases hn : findAccount s.root n = none
  · exact Or.inl ⟨hn, withdraw_eq_of_absent s n a hn⟩
  · by_cases ha : a ≤ 0
    · exact Or.inr (Or.inl ⟨hn, ha, withdraw_eq_of_nonpos s n a hn ha⟩)
    · obtain ⟨P, hP⟩ := exists_balanceOf_of_ne_none s.root n hn
      by_cases hlt : P < a
      · exact Or.inr (Or.inr (Or.inl ⟨P, hP, not_le.mp ha, hlt,
          withdraw_eq_of_insufficient s n a P hP (not_le.mp ha) hlt⟩))
      · exact Or.inr (Or.inr (Or.inr ⟨P, hP, not_le.mp ha, not_lt.mp hlt,
          withdraw_eq_of_balanceOf s n a P hP (not_le.mp ha) (not_lt.mp hlt)⟩))

theorem undo_eq_of_empty (s : BankingSystem) (n : Int) (hlog : s.transactionHistory = []) :
    undoLastTransaction s n = (s, [Output.noTransactionsToUndo]) := by
  unfold undoLastTransaction
  rw [hlog]

theorem undo_eq_of_absent (s : BankingSystem) (n : Int) (e : Transaction)
    (rest : List Transaction) (hlog : s.transactionHistory = e :: rest)
    (hn : findAccount s.root n = none) :
    undoLastTransaction s n = (s, [Output.accountNotFound]) := by
  unfold undoLastTransaction
  rw [hlog]
  simp only [(findAccount_eq_none_iff s.root n).1 hn]

/-- The three ways `undoLastTransaction` can go. -/
theorem undo_cases (s : BankingSystem) (n : Int) :
    (s.transactionHistory = [] ∧ undoLastTransaction s n = (s, [Output.noTransactionsToUndo]))
    ∨ (s.transactionHistory ≠ [] ∧ findAccount s.root n = none
        ∧ undoLastTransaction s n = (s, [Output.accountNotFound]))
    ∨ (∃ e rest, s.transactionHistory = e :: rest ∧ findAccount s.root n ≠ none ∧
        undoLastTransaction s n =
          ({ root := storeBalance s.root n e.balanceBefore,
             transactionHistory := rest,
             fraudQueue := s.fraudQueue,
             fraudThreshold := s.fraudThreshold },
           [Output.transactionUndone e.type e.amount,
            Output.balanceRestored e.balanceBefore])) := by
  cases hlog : s.transactionHistory with
  | nil => exact Or.inl ⟨rfl, undo_eq_of_empty s n hlog⟩
  | cons e rest =>
    by_cases hn : findAccount s.root n = none
    · exact Or.inr (Or.inl ⟨by simp, hn, undo_eq_of_absent s n e rest hlog hn⟩)
    · obtain ⟨P, hP⟩ := exists_balanceOf_of_ne_none s.root n hn
      exact Or.inr (Or.inr ⟨e, rest, rfl, hn, undo_eq_of_balanceOf s n P e rest hP hlog⟩)

theorem checkBalance_state (s : BankingSystem) (n : Int) : (checkBalance s n).1 = s := by
  unfold checkBalance
  split <;> rfl

theorem displayAllAccounts_state (s : BankingSystem) : (displayAllAccounts s).1 = s := by
  unfold displayAllAccounts
  split <;> rfl

theorem displayFraudQueue_state (s : BankingSystem) : (displayFraudQueue s).1 = s := by
  unfold displayFraudQueue
  split <;> rfl

theorem fraudQueueEntries_fraudQueueLines (q : List Transaction) (count : Nat) :
    fraudQueueEntries (fraudQueueLines q count) = q := by
  induction q generalizing count with
  | nil => rfl
  | cons t q ih =>
    have h := ih (count + 1)
    unfold fraudQueueEntries at h ⊢
    simp only [fraudQueueLines, List.filterMap_cons, h]

theorem fraudQueueEntries_displayFraudQueue (s : BankingSystem) :
    fraudQueueEntries (displayFraudQueue s).2 = s.fraudQueue := by
  unfold displayFraudQueue
  cases hq : s.fraudQueue with
  | nil => rfl
  | cons t q =>
    have h := fraudQueueEntries_fraudQueueLines (t :: q) 1
    unfold fraudQueueEntries at h ⊢
    simp only [List.filterMap_cons]
    exact h

/-! ## What a store and a call do to the index -/

theorem skeleton_storeBalance (t : AccountNode) (n : Int) (v : ℚ) :
    (storeBalance t n v).skeleton = t.skeleton := by
  induction t with
  | nil => rfl
  | node k h b l r ihl ihr =>
    simp only [storeBalance]
    split_ifs <;> simp [AccountNode.skeleton, ihl, ihr]

theorem keys_storeBalance (t : AccountNode) (n : Int) (v : ℚ) :
    (storeBalance t n v).keys = t.keys := by
  induction t with
  | nil => rfl
  | node k h b l r ihl ihr =>
    simp only [storeBalance]
    split_ifs <;> simp [AccountNode.keys, ihl, ihr]

theorem ordered_storeBalance (t : AccountNode) (n : Int) (v : ℚ) (ht : t.ordered) :
    (storeBalance t n v).ordered := by
  induction t with
  | nil => exact ht
  | node k h b l r ihl ihr =>
    obtain ⟨hl, hr, ol, or⟩ := ht
    simp only [storeBalance]
    split_ifs
    · exact ⟨hl, hr, ol, or⟩
    · exact ⟨by rw [keys_storeBalance]; exact hl, hr, ihl ol, or⟩
    · exact ⟨hl, by rw [keys_storeBalance]; exact hr, ol, ihr or⟩

theorem deposit_root (s : BankingSystem) (n : Int) (a : ℚ) :
    (deposit s n a).1.root = s.root ∨ ∃ v, (deposit s n a).1.root = storeBalance s.root n v := by
  rcases deposit_cases s n a with ⟨_, h⟩ | ⟨_, _, h⟩ | ⟨P, _, _, h⟩
  · rw [h]; exact Or.inl rfl
  · rw [h]; exact Or.inl rfl
  · rw [h]; exact Or.inr ⟨_, rfl⟩

theorem withdraw_root (s : BankingSystem) (n : Int) (a : ℚ) :
    (withdraw s n a).1.root = s.root
      ∨ ∃ v, (withdraw s n a).1.root = storeBalance s.root n v := by
  rcases withdraw_cases s n a with ⟨_, h⟩ | ⟨_, _, h⟩ | ⟨P, _, _, _, h⟩ | ⟨P, _, _, _, h⟩
  · rw [h]; exact Or.inl rfl
  · rw [h]; exact Or.inl rfl
  · rw [h]; exact Or.inl rfl
  · rw [h]; exact Or.inr ⟨_, rfl⟩

theorem undo_root (s : BankingSystem) (n : Int) :
    (undoLastTransaction s n).1.root = s.root
      ∨ ∃ v, (undoLastTransaction s n).1.root = storeBalance s.root n v := by
  rcases undo_cases s n with ⟨_, h⟩ | ⟨_, _, h⟩ | ⟨e, rest, _, _, h⟩
  · rw [h]; exact Or.inl rfl
  · rw [h]; exact Or.inl rfl
  · rw [h]; exact Or.inr ⟨_, rfl⟩

theorem ordered_step (s : BankingSystem) (op : Op) (hs : s.root.ordered) :
    (step s op).1.root.ordered := by
  cases op with
  | addAccount k h b => exact ordered_insertAccount s.root k h b hs
  | deposit n a =>
    rcases deposit_root s n a with h | ⟨v, h⟩
    · simp only [step, h]; exact hs
    · simp only [step, h]; exact ordered_storeBalance _ _ _ hs
  | withdraw n a =>
    rcases withdraw_root s n a with h | ⟨v, h⟩
    · simp only [step, h]; exact hs
    · simp only [step, h]; exact ordered_storeBalance _ _ _ hs
  | checkBalance n => simp only [step, checkBalance_state]; exact hs
  | undoLastTransaction n =>
    rcases undo_root s n with h | ⟨v, h⟩
    · simp only [step, h]; exact hs
    · simp only [step, h]; exact ordered_storeBalance _ _ _ hs
  | displayFraudQueue => simp only [step, displayFraudQueue_state]; exact hs
  | displayAllAccounts => simp only [step, displayAllAccounts_state]; exact hs
  | setFraudThreshold x => exact hs

theorem ordered_run (ops : List Op) (s : BankingSystem) (hs : s.root.ordered) :
    (run s ops).root.ordered := by
  induction ops generalizing s with
  | nil => exact hs
  | cons op ops ih => exact ih _ (ordered_step s op hs)

theorem findAccount_holder_storeBalance (t : AccountNode) (n : Int) (v : ℚ) :
    (findAccount (storeBalance t n v) n).map (fun r => (r.1, r.2.1))
      = (findAccount t n).map (fun r => (r.1, r.2.1)) := by
  rw [findAccount_storeBalance_same]
  cases findAccount t n <;> rfl

theorem findAccount_addAccount_of_present (s : BankingSystem) (k : Int) (h : String) (b : ℚ)
    (j : Int) (hj : findAccount s.root j ≠ none) :
    findAccount (addAccount s k h b).1.root j = findAccount s.root j := by
  simp only [addAccount, findAccount_insertAccount]
  by_cases hjk : j = k
  · subst hjk
    simp [hj]
  · simp [hjk]

/-! ## Non-negative balances -/

theorem mem_balances_storeBalance (t : AccountNode) (n : Int) (v x : ℚ)
    (hx : x ∈ (storeBalance t n v).balances) : x = v ∨ x ∈ t.balances := by
  induction t with
  | nil => exact Or.inr hx
  | node k h b l r ihl ihr =>
    simp only [storeBalance] at hx
    split_ifs at hx
    · simp only [AccountNode.balances, List.mem_append, List.mem_cons] at hx ⊢
      tauto
    · simp only [AccountNode.balances, List.mem_append, List.mem_cons] at hx ⊢
      rcases hx with hx | hx
      · rcases ihl hx with h1 | h1
        · exact Or.inl h1
        · exact Or.inr (Or.inl h1)
      · exact Or.inr (Or.inr hx)
    · simp only [AccountNode.balances, List.mem_append, List.mem_cons] at hx ⊢
      rcases hx with hx | hx | hx
      · exact Or.inr (Or.inl hx)
      · exact Or.inr (Or.inr (Or.inl hx))
      · rcases ihr hx with h1 | h1
        · exact Or.inl h1
        · exact Or.inr (Or.inr (Or.inr h1))

theorem mem_balances_insertAccount (t : AccountNode) (k : Int) (h : String) (b x : ℚ)
    (hx : x ∈ (insertAccount t k h b).1.balances) : x = b ∨ x ∈ t.balances := by
  induction t with
  | nil =>
    simp only [insertAccount, AccountNode.balances, List.nil_append, List.mem_cons,
      List.not_mem_nil, or_false] at hx
    exact Or.inl hx
  | node k0 h0 b0 l r ihl ihr =>
    simp only [insertAccount] at hx
    split_ifs at hx
    · simp only [AccountNode.balances, List.mem_append, List.mem_cons] at hx ⊢
      rcases hx with hx | hx
      · rcases ihl hx with h1 | h1
        · exact Or.inl h1
        · exact Or.inr (Or.inl h1)
      · exact Or.inr (Or.inr hx)
    · simp only [AccountNode.balances, List.mem_append, List.mem_cons] at hx ⊢
      rcases hx with hx | hx | hx
      · exact Or.inr (Or.inl hx)
      · exact Or.inr (Or.inr (Or.inl hx))
      · rcases ihr hx with h1 | h1
        · exact Or.inl h1
        · exact Or.inr (Or.inr (Or.inr h1))
    · exact Or.inr hx

theorem mem_balances_of_balanceOf (t : AccountNode) (n : Int) (P : ℚ)
    (hP : balanceOf t n = some P) : P ∈ t.balances := by
  induction t with
  | nil => simp [balanceOf, findAccount_nil] at hP
  | node k h b l r ihl ihr =>
    unfold balanceOf at hP ihl ihr
    rw [findAccount_node] at hP
    simp only [AccountNode.balances, List.mem_append, List.mem_cons]
    split_ifs at hP
    · simp only [Option.map_some', Option.some.injEq] at hP
      exact Or.inr (Or.inl hP.symm)
    · exact Or.inl (ihl hP)
    · exact Or.inr (Or.inr (ihr hP))

/-- One call keeps every balance and every stored `balanceBefore` non-negative. -/
theorem nonneg_step (s : BankingSystem) (op : Op) (hop : op.nonnegInitialBalance)
    (hb : ∀ x ∈ s.root.balances, 0 ≤ x)
    (hl : ∀ e ∈ s.transactionHistory, 0 ≤ e.balanceBefore) :
    (∀ x ∈ (step s op).1.root.balances, 0 ≤ x)
      ∧ (∀ e ∈ (step s op).1.transactionHistory, 0 ≤ e.balanceBefore) := by
  cases op with
  | addAccount k h b =>
    refine ⟨fun x hx => ?_, hl⟩
    rcases mem_balances_insertAccount s.root k h b x hx with rfl | hx
    · exact hop
    · exact hb x hx
  | deposit n a =>
    simp only [step]
    rcases deposit_cases s n a with ⟨_, h⟩ | ⟨_, _, h⟩ | ⟨P, hP, ha, h⟩
    · rw [h]; exact ⟨hb, hl⟩
    · rw [h]; exact ⟨hb, hl⟩
    · rw [h]
      have hP0 : 0 ≤ P := hb P (mem_balances_of_balanceOf s.root n P hP)
      refine ⟨fun x hx => ?_, fun e he => ?_⟩
      · rcases mem_balances_storeBalance s.root n _ x hx with rfl | hx
        · exact add_nonneg hP0 (le_of_lt ha)
        · exact hb x hx
      · simp only [List.mem_cons] at he
        rcases he with rfl | he
        · exact hP0
        · exact hl e he
  | withdraw n a =>
    simp only [step]
    rcases withdraw_cases s n a with ⟨_, h⟩ | ⟨_, _, h⟩ | ⟨P, _, _, _, h⟩ | ⟨P, hP, ha, hle, h⟩
    · rw [h]; exact ⟨hb, hl⟩
    · rw [h]; exact ⟨hb, hl⟩
    · rw [h]; exact ⟨hb, hl⟩
    · rw [h]
      have hP0 : 0 ≤ P := hb P (mem_balances_of_balanceOf s.root n P hP)
      refine ⟨fun x hx => ?_, fun e he => ?_⟩
      · rcases mem_balances_storeBalance s.root n _ x hx with rfl | hx
        · exact sub_nonneg.mpr hle
        · exact hb x hx
      · simp only [List.mem_cons] at he
        rcases he with rfl | he
        · exact hP0
        · exact hl e he
  | checkBalance n => simp only [step, checkBalance_state]; exact ⟨hb, hl⟩
  | undoLastTransaction n =>
    simp only [step]
    rcases undo_cases s n with ⟨_, h⟩ | ⟨_, _, h⟩ | ⟨e, rest, hlog, _, h⟩
    · rw [h]; exact ⟨hb, hl⟩
    · rw [h]; exact ⟨hb, hl⟩
    · rw [h]
      rw [hlog] at hl
      refine ⟨fun x hx => ?_, fun e2 he2 => hl e2 (List.mem_cons_of_mem _ he2)⟩
      rcases mem_balances_storeBalance s.root n _ x hx with rfl | hx
      · exact hl e (List.mem_cons_self _ _)
      · exact hb x hx
  | displayFraudQueue => simp only [step, displayFraudQueue_state]; exact ⟨hb, hl⟩
  | displayAllAccounts => simp only [step, displayAllAccounts_state]; exact ⟨hb, hl⟩
  | setFraudThreshold x => exact ⟨hb, hl⟩

theorem nonneg_run (ops : List Op) (s : BankingSystem)
    (hops : ∀ op ∈ ops, op.nonnegInitialBalance)
    (hb : ∀ x ∈ s.root.balances, 0 ≤ x)
    (hl : ∀ e ∈ s.transactionHistory, 0 ≤ e.balanceBefore) :
    (∀ x ∈ (run s ops).root.balances, 0 ≤ x)
      ∧ (∀ e ∈ (run s ops).transactionHistory, 0 ≤ e.balanceBefore) := by
  induction ops generalizing s with
  | nil => exact ⟨hb, hl⟩
  | cons op ops ih =>
    have h := nonneg_step s op (hops op (List.mem_cons_self _ _)) hb hl
    exact ih _ (fun o ho => hops o (List.mem_cons_of_mem _ ho)) h.1 h.2

/-! ## Repeated undo -/

theorem undoTimes_succ (s : BankingSystem) (n : Int) (k : Nat) :
    undoTimes s n (k + 1) =
      ((undoLastTransaction (undoTimes s n k).1 n).1,
       (undoTimes s n k).2 ++ [(undoLastTransaction (undoTimes s n k).1 n).2]) := by
  induction k generalizing s with
  | zero => rfl
  | succ k ih =>
    have e1 : undoTimes s n (k + 1 + 1) =
        ((undoTimes (undoLastTransaction s n).1 n (k + 1)).1,
         (undoLastTransaction s n).2 :: (undoTimes (undoLastTransaction s n).1 n (k + 1)).2) :=
      rfl
    have e2 : undoTimes s n (k + 1) =
        ((undoTimes (undoLastTransaction s n).1 n k).1,
         (undoLastTransaction s n).2 :: (undoTimes (undoLastTransaction s n).1 n k).2) := rfl
    rw [e1, ih (undoLastTransaction s n).1, e2]
    rfl

/-- If `k` undo calls on `S` bring back the state `s1`, and `s1` is `s` after one more
successful call on `n` that pushed `e`, then `k + 1` undo calls on `S` bring back `s`. -/
theorem undoTimes_extend (s s1 S : BankingSystem) (n : Int) (P P1 : ℚ) (e : Transaction)
    (k : Nat) (hP : balanceOf s.root n = some P)
    (hroot : s1.root = storeBalance s.root n P1)
    (hlog : s1.transactionHistory = e :: s.transactionHistory) (he : e.balanceBefore = P)
    (ih : ∃ entries : List Transaction, entries.length = k
      ∧ S.transactionHistory = entries ++ s1.transactionHistory
      ∧ (undoTimes S n k).2 = entries.map (fun t =>
          [Output.transactionUndone t.type t.amount, Output.balanceRestored t.balanceBefore])
      ∧ balanceOf (undoTimes S n k).1.root n = some P1
      ∧ (undoTimes S n k).1.root = s1.root
      ∧ (undoTimes S n k).1.transactionHistory = s1.transactionHistory) :
    ∃ entries : List Transaction, entries.length = k + 1
      ∧ S.transactionHistory = entries ++ s.transactionHistory
      ∧ (undoTimes S n (k + 1)).2 = entries.map (fun t =>
          [Output.transactionUndone t.type t.amount, Output.balanceRestored t.balanceBefore])
      ∧ balanceOf (undoTimes S n (k + 1)).1.root n = some P
      ∧ (undoTimes S n (k + 1)).1.root = s.root
      ∧ (undoTimes S n (k + 1)).1.transactionHistory = s.transactionHistory := by
  obtain ⟨entries, hlen, hhist, hout, hbal, hr, hh⟩ := ih
  have hu := undo_eq_of_balanceOf (undoTimes S n k).1 n P1 e s.transactionHistory hbal
    (by rw [hh, hlog])
  have hback : storeBalance (undoTimes S n k).1.root n e.balanceBefore = s.root := by
    rw [hr, hroot, storeBalance_storeBalance, he, storeBalance_self _ _ _ hP]
  refine ⟨entries ++ [e], by simp [hlen], ?_, ?_, ?_, ?_, ?_⟩
  · rw [hhist, hlog]; simp
  · rw [undoTimes_succ, hu, hout]; simp
  · rw [undoTimes_succ, hu]
    simp only [hback]
    exact hP
  · rw [undoTimes_succ, hu]
    exact hback
  · rw [undoTimes_succ, hu]

/-! ## Balance conservation and undo -/

/-! ### Rounding to a `double` -/

theorem depositDouble_eq_of_balanceOf (s : BankingSystem) (n : Int) (a P v : ℚ)
    (hP : balanceOf s.root n = some P) (ha : 0 < a) (hv : doubleAdd P a = some v) :
    depositDouble s n a =
      some
        ({ root := storeBalance s.root n v,
           transactionHistory := ⟨"DEPOSIT", a, P, v⟩ :: s.transactionHistory,
           fraudQueue := if a > s.fraudThreshold
             then s.fraudQueue ++ [⟨"DEPOSIT", a, P, v⟩] else s.fraudQueue,
           fraudThreshold := s.fraudThreshold },
         (if a > s.fraudThreshold then [Output.largeDepositAlert] else [])
           ++ [Output.depositSuccessful v]) := by
  obtain ⟨h, l, r, hs⟩ := searchAccount_of_balanceOf s.root n P hP
  unfold depositDouble
  rw [hs]
  simp only [not_le.mpr ha, if_false, hv]

theorem withdrawDouble_eq_of_balanceOf (s : BankingSystem) (n : Int) (a P v : ℚ)
    (hP : balanceOf s.root n = some P) (ha : 0 < a) (hle : a ≤ P)
    (hv : doubleSub P a = some v) :
    withdrawDouble s n a =
      some
        ({ root := storeBalance s.root n v,
           transactionHistory := ⟨"WITHDRAW", a, P, v⟩ :: s.transactionHistory,
           fraudQueue := if a > s.fraudThreshold
             then s.fraudQueue ++ [⟨"WITHDRAW", a, P, v⟩] else s.fraudQueue,
           fraudThreshold := s.fraudThreshold },
         (if a > s.fraudThreshold then [Output.largeWithdrawalAlert] else [])
           ++ [Output.withdrawalSuccessful v]) := by
  obtain ⟨h, l, r, hs⟩ := searchAccount_of_balanceOf s.root n P hP
  unfold withdrawDouble
  rw [hs]
  simp only [not_le.mpr ha, not_lt.mpr hle, if_false, hv]

/-- When the exact sum is a finite double, the rounding and the exact `deposit` agree. -/
theorem depositDouble_eq_deposit (s : BankingSystem) (n : Int) (a P : ℚ)
    (hP : balanceOf s.root n = some P) (ha : 0 < a) (hv : doubleAdd P a = some (P + a)) :
    depositDouble s n a = some (deposit s n a) := by
  rw [depositDouble_eq_of_balanceOf s n a P (P + a) hP ha hv,
    deposit_eq_of_balanceOf s n a P hP ha]

/-- When the exact difference is a finite double, the rounding and the exact `withdraw`
agree. -/
theorem withdrawDouble_eq_withdraw (s : BankingSystem) (n : Int) (a P : ℚ)
    (hP : balanceOf s.root n = some P) (ha : 0 < a) (hle : a ≤ P)
    (hv : doubleSub P a = some (P - a)) :
    withdrawDouble s n a = some (withdraw s n a) := by
  rw [withdrawDouble_eq_of_balanceOf s n a P (P - a) hP ha hle hv,
    withdraw_eq_of_balanceOf s n a P hP ha hle]

/-- C3. When `accNum` is already in the index, `addAccount` with that number (any holder, any
initial balance) changes nothing: the state returned is the state given, so the index is the
same tree with the same number of accounts, the existing account keeps its holder and balance,
and the undo log, review queue and threshold are unchanged. -/
theorem addAccount_duplicate_no_mutation (s : BankingSystem) (accNum : Int) (holder : String)
    (initialBalance : ℚ) (hpresent : findAccount s.root accNum ≠ none) :
    (addAccount s accNum holder initialBalance).1 = s
      ∧ (addAccount s accNum holder initialBalance).1.root = s.root
      ∧ (addAccount s accNum holder initialBalance).1.root.size = s.root.size
      ∧ findAccount (addAccount s accNum holder initialBalance).1.root accNum
          = findAccount s.root accNum
      ∧ (addAccount s accNum holder initialBalance).1.transactionHistory = s.transactionHistory
      ∧ (addAccount s accNum holder initialBalance).1.fraudQueue = s.fraudQueue
      ∧ (addAccount s accNum holder initialBalance).1.fraudThreshold = s.fraudThreshold := by
  have h : (addAccount s accNum holder initialBalance).1 = s := by
    simp only [addAccount, insertAccount_of_present _ _ holder initialBalance hpresent]
  rw [h]
  exact ⟨rfl, rfl, rfl, rfl, rfl, rfl, rfl⟩

/-- Witness of C3 on the sample ledger: account 50 is present (holder "Bob", balance -5). -/
theorem addAccount_duplicate_no_mutation_witness :
    findAccount sampleLedger.root 50 ≠ none
      ∧ (addAccount sampleLedger 50 "Eve" 1000).1 = sampleLedger
      ∧ findAccount (addAccount sampleLedger 50 "Eve" 1000).1.root 50 = some (50, "Bob", -5) :=
  ⟨by simp [show findAccount sampleLedger.root 50 = some (50, "Bob", -5) from rfl],
   (addAccount_duplicate_no_mutation sampleLedger 50 "Eve" 1000
      (by simp [show findAccount sampleLedger.root 50 = some (50, "Bob", -5) from rfl])).1,
   ((addAccount_duplicate_no_mutation sampleLedger 50 "Eve" 1000
      (by simp [show findAccount sampleLedger.root 50 = some (50, "Bob", -5) from rfl])).2.2.2.1).trans
     rfl⟩

/-- C4 (the code at a duplicate). Adding account 1 twice: the second call prints
"Account number already exists!" and then still prints "Account created successfully!", so the
duplicate call ends with the success confirmation; the index keeps the first account. -/
theorem addAccount_duplicate_prints_created :
    (addAccount (addAccount BankingSystem.new 1 "A" 100).1 1 "B" 50).2
        = [Output.accountNumberAlreadyExists, Output.accountCreatedSuccessfully]
      ∧ Output.accountCreatedSuccessfully
          ∈ (addAccount (addAccount BankingSystem.new 1 "A" 100).1 1 "B" 50).2
      ∧ (addAccount BankingSystem.new 1 "A" 100).2 = [Output.accountCreatedSuccessfully]
      ∧ findAccount (addAccount (addAccount BankingSystem.new 1 "A" 100).1 1 "B" 50).1.root 1
          = some (1, "A", 100) := by
  refine ⟨rfl, ?_, rfl, rfl⟩
  rw [show (addAccount (addAccount BankingSystem.new 1 "A" 100).1 1 "B" 50).2
        = [Output.accountNumberAlreadyExists, Output.accountCreatedSuccessfully] from rfl]
  simp

/-- C5. For every sequence of `addAccount` calls from the empty index, in any order, the
in-order traversal prints the accounts in strictly ascending account-number order, one line per
stored account, and the account numbers printed are the sorted list of the distinct account
numbers inserted. -/
theorem inorderTraversal_sorted (calls : List (Int × String × ℚ)) :
    (accountNumbers (inorderTraversal (addAccounts BankingSystem.new calls).root)).Sorted (· < ·)
      ∧ (inorderTraversal (addAccounts BankingSystem.new calls).root).length
          = (addAccounts BankingSystem.new calls).root.size
      ∧ (accountNumbers (inorderTraversal (addAccounts BankingSystem.new calls).root)).Nodup
      ∧ (∀ k, k ∈ accountNumbers (inorderTraversal (addAccounts BankingSystem.new calls).root)
            ↔ k ∈ calls.map (fun c => c.1))
      ∧ accountNumbers (inorderTraversal (addAccounts BankingSystem.new calls).root)
          = Finset.sort (· ≤ ·) (calls.map (fun c => c.1)).toFinset
      ∧ accountNumbers (displayAllAccounts (addAccounts BankingSystem.new calls)).2
          = Finset.sort (· ≤ ·) (calls.map (fun c => c.1)).toFinset := by
  have ho : (addAccounts BankingSystem.new calls).root.ordered :=
    ordered_addAccounts calls BankingSystem.new trivial
  have hs := sorted_keys_of_ordered _ ho
  have hmem : ∀ k, k ∈ (addAccounts BankingSystem.new calls).root.keys
      ↔ k ∈ calls.map (fun c => c.1) := fun k => by
    rw [mem_keys_addAccounts]
    simp [BankingSystem.new, AccountNode.keys]
  have hnd : (addAccounts BankingSystem.new calls).root.keys.Nodup := hs.nodup
  rw [accountNumbers_displayAllAccounts, accountNumbers_inorderTraversal]
  refine ⟨hs, length_inorderTraversal _, hnd, hmem, ?_⟩
  rw [and_self]
  have hfin : (calls.map (fun c => c.1)).toFinset
      = (addAccounts BankingSystem.new calls).root.keys.toFinset := by
    ext k
    simp only [List.mem_toFinset, hmem]
  rw [hfin]
  exact ((List.toFinset_sort (· ≤ ·) hnd).2 (hs.imp (fun h => le_of_lt h))).symm

/-- C6. In an index built from the empty index by `addAccount` calls, looking up `k` returns
the first call that inserted `k` (its number, holder and initial balance), and nothing when no
call inserted `k`.  Right after `addAccount k h b` with `k` not present before, looking up `k`
returns `(k, h, b)` and looking up any other number returns what it returned before. -/
theorem findAccount_addAccounts (calls : List (Int × String × ℚ)) (k : Int) :
    findAccount (addAccounts BankingSystem.new calls).root k
        = calls.find? (fun c => decide (c.1 = k))
      ∧ (findAccount (addAccounts BankingSystem.new calls).root k ≠ none
          ↔ k ∈ calls.map (fun c => c.1))
      ∧ (∀ a, findAccount (addAccounts BankingSystem.new calls).root k = some a → a.1 = k)
      ∧ (∀ h b, findAccount (addAccounts BankingSystem.new calls).root k = none →
          findAccount (addAccount (addAccounts BankingSystem.new calls) k h b).1.root k
              = some (k, h, b)
          ∧ ∀ j, j ≠ k →
              findAccount (addAccount (addAccounts BankingSystem.new calls) k h b).1.root j
                = findAccount (addAccounts BankingSystem.new calls).root j) := by
  have hfind : findAccount (addAccounts BankingSystem.new calls).root k
      = calls.find? (fun c => decide (c.1 = k)) := by
    rw [findAccount_addAccounts_from]
    rfl
  refine ⟨hfind, ?_, ?_, ?_⟩
  · rw [hfind, ne_eq, List.find?_eq_none]
    simp only [decide_eq_true_eq, not_forall, not_not, List.mem_map]
    constructor
    · rintro ⟨c, hc, rfl⟩
      exact ⟨c, hc, rfl⟩
    · rintro ⟨c, hc, rfl⟩
      exact ⟨c, hc, rfl⟩
  · rintro ⟨k0, h0, b0⟩ ha
    exact findAccount_key _ _ _ _ _ ha
  · intro h b hnone
    refine ⟨?_, fun j hj => ?_⟩
    · simp only [addAccount, findAccount_insertAccount, hnone, and_self, if_true]
    · simp only [addAccount, findAccount_insertAccount, hj, false_and, if_false]

/-- Witness of C6: after inserting 101, 50, 150, account 7 is absent; adding it then makes it
found, and account 50 is still found as before. -/
theorem findAccount_addAccounts_witness :
    findAccount
        (addAccounts BankingSystem.new [(101, "Ann", 500), (50, "Bob", -5), (150, "Cy", 20000)]).root
        7 = none
      ∧ findAccount (addAccount (addAccounts BankingSystem.new
          [(101, "Ann", 500), (50, "Bob", -5), (150, "Cy", 20000)]) 7 "Dee" 3).1.root 7
          = some (7, "Dee", 3)
      ∧ findAccount (addAccount (addAccounts BankingSystem.new
          [(101, "Ann", 500), (50, "Bob", -5), (150, "Cy", 20000)]) 7 "Dee" 3).1.root 50
          = some (50, "Bob", -5) :=
  ⟨rfl,
   ((findAccount_addAccounts [(101, "Ann", 500), (50, "Bob", -5), (150, "Cy", 20000)] 7).2.2.2
      "Dee" 3 rfl).1,
   (((findAccount_addAccounts [(101, "Ann", 500), (50, "Bob", -5), (150, "Cy", 20000)] 7).2.2.2
      "Dee" 3 rfl).2 50 (by decide)).trans rfl⟩

/-! ## Fraud flagging -/

/-- C8 fails for an account that does not exist: on the fresh ledger, `deposit 1 0` and
`withdraw 1 0` (amount `0 ≤ 0`) print "Account not found!", not the invalid-amount line. -/
theorem nonpositive_amount_absent_account :
    (0 : ℚ) ≤ 0
      ∧ (deposit BankingSystem.new 1 0).2 = [Output.accountNotFound]
      ∧ (deposit BankingSystem.new 1 0).2 ≠ [Output.invalidDepositAmount]
      ∧ (withdraw BankingSystem.new 1 0).2 = [Output.accountNotFound]
      ∧ (withdraw BankingSystem.new 1 0).2 ≠ [Output.invalidWithdrawalAmount] := by
  have hd := deposit_eq_of_absent BankingSystem.new 1 0 rfl
  have hw := withdraw_eq_of_absent BankingSystem.new 1 0 rfl
  rw [hd, hw]
  exact ⟨le_refl _, rfl, by simp, rfl, by simp⟩

/-- C8 (amended). For every ledger state, every account number present in the index and every
amount `≤ 0`, deposit and withdraw print the invalid-amount line and return the state
unchanged: no balance, nor the undo log, nor the review queue changes. -/
theorem nonpositive_amount_rejected (s : BankingSystem) (n : Int) (a : ℚ)
    (hn : findAccount s.root n ≠ none) (ha : a ≤ 0) :
    (deposit s n a).2 = [Output.invalidDepositAmount]
      ∧ (deposit s n a).1 = s
      ∧ (withdraw s n a).2 = [Output.invalidWithdrawalAmount]
      ∧ (withdraw s n a).1 = s
      ∧ (∀ m, balanceOf (deposit s n a).1.root m = balanceOf s.root m)
      ∧ (∀ m, balanceOf (withdraw s n a).1.root m = balanceOf s.root m)
      ∧ (deposit s n a).1.transactionHistory = s.transactionHistory
      ∧ (withdraw s n a).1.transactionHistory = s.transactionHistory
      ∧ (deposit s n a).1.fraudQueue = s.fraudQueue
      ∧ (withdraw s n a).1.fraudQueue = s.fraudQueue := by
  rw [deposit_eq_of_nonpos s n a hn ha, withdraw_eq_of_nonpos s n a hn ha]
  exact ⟨rfl, rfl, rfl, rfl, fun _ => rfl, fun _ => rfl, rfl, rfl, rfl, rfl⟩

/-- Witness of C8 (amended) on the sample ledger: amount -3 on the existing account 101. -/
theorem nonpositive_amount_rejected_witness :
    findAccount sampleLedger.root 101 ≠ none ∧ (-3 : ℚ) ≤ 0
      ∧ (deposit sampleLedger 101 (-3)).2 = [Output.invalidDepositAmount]
      ∧ (withdraw sampleLedger 101 (-3)).1 = sampleLedger :=
  have hf : findAccount sampleLedger.root 101 ≠ none := by
    simp [show findAccount sampleLedger.root 101 = some (101, "Ann", 500) from rfl]
  ⟨hf, by norm_num,
   (nonpositive_amount_rejected sampleLedger 101 (-3) hf (by norm_num)).1,
   (nonpositive_amount_rejected sampleLedger 101 (-3) hf (by norm_num)).2.2.2.1⟩

/-- C9 fails for a non-positive amount above a negative balance: account 50 of the sample
ledger has balance -5 (accounts may be opened with a negative balance); withdrawing -1, which
is greater than -5, prints "Invalid withdrawal amount!", not "Insufficient balance!". -/
theorem withdraw_above_negative_balance :
    balanceOf sampleLedger.root 50 = some (-5) ∧ (-1 : ℚ) > -5
      ∧ (withdraw sampleLedger 50 (-1)).2 = [Output.invalidWithdrawalAmount]
      ∧ (withdraw sampleLedger 50 (-1)).2 ≠ [Output.insufficientBalance] := by
  have hf : findAccount sampleLedger.root 50 ≠ none := by
    simp [show findAccount sampleLedger.root 50 = some (50, "Bob", -5) from rfl]
  rw [withdraw_eq_of_nonpos sampleLedger 50 (-1) hf (by norm_num)]
  exact ⟨rfl, by norm_num, rfl, by simp⟩

/-- C9 (amended). For every ledger state, every existing account (balance `P`) and every
amount that is positive and greater than `P`, withdraw prints "Insufficient balance!" and
returns the state unchanged: no balance, nor the undo log, nor the review queue changes. -/
theorem withdraw_insufficient_rejected (s : BankingSystem) (n : Int) (a P : ℚ)
    (hP : balanceOf s.root n = some P) (ha : 0 < a) (hgt : a > P) :
    (withdraw s n a).2 = [Output.insufficientBalance]
      ∧ (withdraw s n a).1 = s
      ∧ (∀ m, balanceOf (withdraw s n a).1.root m = balanceOf s.root m)
      ∧ (withdraw s n a).1.transactionHistory = s.transactionHistory
      ∧ (withdraw s n a).1.fraudQueue = s.fraudQueue := by
  rw [withdraw_eq_of_insufficient s n a P hP ha hgt]
  exact ⟨rfl, rfl, fun _ => rfl, rfl, rfl⟩

/-- Witness of C9 (amended) on the sample ledger: withdrawing 800 from account 101 (balance
500). -/
theorem withdraw_insufficient_rejected_witness :
    balanceOf sampleLedger.root 101 = some 500 ∧ (0 : ℚ) < 800 ∧ (800 : ℚ) > 500
      ∧ (withdraw sampleLedger 101 800).2 = [Output.insufficientBalance]
      ∧ (withdraw sampleLedger 101 800).1 = sampleLedger :=
  ⟨rfl, by norm_num, by norm_num,
   (withdraw_insufficient_rejected sampleLedger 101 800 500 rfl (by norm_num) (by norm_num)).1,
   (withdraw_insufficient_rejected sampleLedger 101 800 500 rfl (by norm_num)
      (by norm_num)).2.1⟩

/-- C10. For an account number that is not in the index, deposit and withdraw (whatever the
amount, amounts `≤ 0` included) and checkBalance print "Account not found!" and leave the
state as it is; for an account number that is in the index, checkBalance prints exactly that
account's number, holder and current balance, and changes nothing. -/
theorem account_not_found (s : BankingSystem) (n : Int) :
    (findAccount s.root n = none →
        (∀ a, deposit s n a = (s, [Output.accountNotFound]))
        ∧ (∀ a, withdraw s n a = (s, [Output.accountNotFound]))
        ∧ checkBalance s n = (s, [Output.accountNotFound]))
    ∧ (∀ k h b, findAccount s.root n = some (k, h, b) →
        k = n
        ∧ checkBalance s n
            = (s, [Output.balanceAccountNumber n, Output.balanceHolder h,
                   Output.balanceAmount b])) := by
  refine ⟨fun hn => ⟨fun a => deposit_eq_of_absent s n a hn,
    fun a => withdraw_eq_of_absent s n a hn, checkBalance_eq_of_absent s n hn⟩, ?_⟩
  intro k h b hf
  have hk := findAccount_key s.root n k h b hf
  subst hk
  obtain ⟨l, r, hs⟩ := searchAccount_of_findAccount s.root k k h b hf
  refine ⟨rfl, ?_⟩
  unfold checkBalance
  rw [hs]

/-- Witness of C10 on the sample ledger: account 7 is absent, account 150 is present. -/
theorem account_not_found_witness :
    findAccount sampleLedger.root 7 = none
      ∧ deposit sampleLedger 7 (-2) = (sampleLedger, [Output.accountNotFound])
      ∧ checkBalance sampleLedger 7 = (sampleLedger, [Output.accountNotFound])
      ∧ findAccount sampleLedger.root 150 = some (150, "Cy", 20000)
      ∧ checkBalance sampleLedger 150
          = (sampleLedger, [Output.balanceAccountNumber 150, Output.balanceHolder "Cy",
              Output.balanceAmount 20000]) :=
  ⟨rfl, ((account_not_found sampleLedger 7).1 rfl).1 (-2),
   ((account_not_found sampleLedger 7).1 rfl).2.2, rfl,
   ((account_not_found sampleLedger 150).2 150 "Cy" 20000 rfl).2⟩

/-! ## Failures leave the state untouched -/

/-- C11. Whenever deposit, withdraw or undoLastTransaction prints a failure line ("Account not
found!", an invalid-amount line, "Insufficient balance!" or "No transactions to undo!"), the
state after the call is the state before it: index with every balance, undo log, review queue
and threshold. -/
theorem failure_leaves_state (s : BankingSystem) (n : Int) (a : ℚ) :
    ((∃ o ∈ (deposit s n a).2, o.isFailure = true) → (deposit s n a).1 = s)
    ∧ ((∃ o ∈ (withdraw s n a).2, o.isFailure = true) → (withdraw s n a).1 = s)
    ∧ ((∃ o ∈ (undoLastTransaction s n).2, o.isFailure = true) →
        (undoLastTransaction s n).1 = s) := by
  refine ⟨?_, ?_, ?_⟩
  · rcases deposit_cases s n a with ⟨_, h⟩ | ⟨_, _, h⟩ | ⟨P, _, _, h⟩
    · rw [h]; exact fun _ => rfl
    · rw [h]; exact fun _ => rfl
    · rw [h]
      rintro ⟨o, ho, hf⟩
      exfalso
      split_ifs at ho <;> simp at ho <;> rcases ho with rfl | rfl <;>
        simp [Output.isFailure] at hf
  · rcases withdraw_cases s n a with ⟨_, h⟩ | ⟨_, _, h⟩ | ⟨P, _, _, _, h⟩ | ⟨P, _, _, _, h⟩
    · rw [h]; exact fun _ => rfl
    · rw [h]; exact fun _ => rfl
    · rw [h]; exact fun _ => rfl
    · rw [h]
      rintro ⟨o, ho, hf⟩
      exfalso
      split_ifs at ho <;> simp at ho <;> rcases ho with rfl | rfl <;>
        simp [Output.isFailure] at hf
  · rcases undo_cases s n with ⟨_, h⟩ | ⟨_, _, h⟩ | ⟨e, rest, _, _, h⟩
    · rw [h]; exact fun _ => rfl
    · rw [h]; exact fun _ => rfl
    · rw [h]
      rintro ⟨o, ho, hf⟩
      exfalso
      simp at ho
      rcases ho with rfl | rfl <;> simp [Output.isFailure] at hf

/-- Witness of C11 on the sample ledger (empty undo log): depositing on the absent account 7,
withdrawing 800 from account 101 (balance 500) and undoing with nothing to undo. -/
theorem failure_leaves_state_witness :
    (∃ o ∈ (deposit sampleLedger 7 1).2, o.isFailure = true)
      ∧ (deposit sampleLedger 7 1).1 = sampleLedger
      ∧ (∃ o ∈ (withdraw sampleLedger 101 800).2, o.isFailure = true)
      ∧ (withdraw sampleLedger 101 800).1 = sampleLedger
      ∧ (∃ o ∈ (undoLastTransaction sampleLedger 101).2, o.isFailure = true)
      ∧ (undoLastTransaction sampleLedger 101).1 = sampleLedger :=
  have hd : ∃ o ∈ (deposit sampleLedger 7 1).2, o.isFailure = true :=
    ⟨Output.accountNotFound, by rw [deposit_eq_of_absent sampleLedger 7 1 rfl]; simp, rfl⟩
  have hw : ∃ o ∈ (withdraw sampleLedger 101 800).2, o.isFailure = true :=
    ⟨Output.insufficientBalance, by
      rw [withdraw_eq_of_insufficient sampleLedger 101 800 500 rfl (by norm_num) (by norm_num)]
      simp, rfl⟩
  have hu : ∃ o ∈ (undoLastTransaction sampleLedger 101).2, o.isFailure = true :=
    ⟨Output.noTransactionsToUndo, by rw [undo_eq_of_empty sampleLedger 101 rfl]; simp, rfl⟩
  ⟨hd, (failure_leaves_state sampleLedger 7 1).1 hd,
   hw, (failure_leaves_state sampleLedger 101 800).2.1 hw,
   hu, (failure_leaves_state sampleLedger 101 0).2.2 hu⟩

/-- C12. `undoLastTransaction n` prints "No transactions to undo!" exactly when the undo log is
empty (whether or not `n` exists), prints "Account not found!" exactly when the log is
non-empty and `n` is not in the index, and then pops nothing (the state is unchanged); in every
other case it succeeds: it pops the top entry and prints its type, amount and the restored
balance. -/
theorem undo_failure_kinds (s : BankingSystem) (n : Int) :
    ((undoLastTransaction s n).2 = [Output.noTransactionsToUndo] ↔ s.transactionHistory = [])
    ∧ ((undoLastTransaction s n).2 = [Output.accountNotFound]
        ↔ s.transactionHistory ≠ [] ∧ findAccount s.root n = none)
    ∧ (s.transactionHistory ≠ [] → findAccount s.root n = none →
        (undoLastTransaction s n).1.transactionHistory = s.transactionHistory
        ∧ (undoLastTransaction s n).1 = s)
    ∧ (∀ e rest, s.transactionHistory = e :: rest → findAccount s.root n ≠ none →
        (undoLastTransaction s n).2
            = [Output.transactionUndone e.type e.amount, Output.balanceRestored e.balanceBefore]
        ∧ (undoLastTransaction s n).1.transactionHistory = rest
        ∧ balanceOf (undoLastTransaction s n).1.root n = some e.balanceBefore) := by
  rcases undo_cases s n with ⟨hl, h⟩ | ⟨hl, hn, h⟩ | ⟨e, rest, hl, hn, h⟩
  · rw [h]
    refine ⟨by simp [hl], by simp [hl], fun hne => absurd hl hne, fun e rest he => ?_⟩
    rw [hl] at he
    exact absurd he (by simp)
  · rw [h]
    refine ⟨by simp [hl], by simp [hl, hn], fun _ _ => ⟨rfl, rfl⟩, fun e rest _ hne => ?_⟩
    exact absurd hn hne
  · rw [h]
    refine ⟨by simp [hl], by simp [hl, hn], fun _ hnone => absurd hnone hn, ?_⟩
    intro e2 rest2 he2 _
    rw [hl] at he2
    simp only [List.cons.injEq] at he2
    obtain ⟨rfl, rfl⟩ := he2
    obtain ⟨P, hP⟩ := exists_balanceOf_of_ne_none s.root n hn
    exact ⟨rfl, rfl, balanceOf_storeBalance_same _ _ _ P hP⟩

/-- Witness of C12: after a deposit of 200 on account 101 of the sample ledger the undo log is
non-empty; undoing on the absent account 7 pops nothing, undoing on the existing account 50
succeeds. -/
theorem undo_failure_kinds_witness :
    (deposit sampleLedger 101 200).1.transactionHistory ≠ []
      ∧ findAccount (deposit sampleLedger 101 200).1.root 7 = none
      ∧ (undoLastTransaction (deposit sampleLedger 101 200).1 7).1
          = (deposit sampleLedger 101 200).1
      ∧ findAccount (deposit sampleLedger 101 200).1.root 50 ≠ none
      ∧ (undoLastTransaction (deposit sampleLedger 101 200).1 50).1.transactionHistory = [] :=
  have hd := deposit_eq_of_balanceOf sampleLedger 101 200 500 rfl (by norm_num)
  have hl : (deposit sampleLedger 101 200).1.transactionHistory
      = ⟨"DEPOSIT", 200, 500, 500 + 200⟩ :: [] := by rw [hd]; rfl
  have h7 : findAccount (deposit sampleLedger 101 200).1.root 7 = none := by rw [hd]; rfl
  have h50 : findAccount (deposit sampleLedger 101 200).1.root 50 ≠ none := by
    rw [hd]
    simp [show findAccount (storeBalance sampleLedger.root 101 (500 + 200)) 50
      = some (50, "Bob", -5) from rfl]
  ⟨by rw [hl]; simp, h7,
   ((undo_failure_kinds (deposit sampleLedger 101 200).1 7).2.2.1 (by rw [hl]; simp) h7).2,
   h50,
   ((undo_failure_kinds (deposit sampleLedger 101 200).1 50).2.2.2 _ _ hl h50).2.1⟩

/-! ## The fraud threshold -/

theorem scenario_step1 (holder : String) :
    step BankingSystem.new (Op.addAccount 101 holder 500)
      = (⟨AccountNode.node 101 holder 500 AccountNode.nil AccountNode.nil, [], [], 10000⟩,
         [Output.accountCreatedSuccessfully]) := rfl

theorem scenario_step2 (holder : String) :
    step ⟨AccountNode.node 101 holder 500 AccountNode.nil AccountNode.nil, [], [], 10000⟩
        (Op.deposit 101 200)
      = (⟨AccountNode.node 101 holder 700 AccountNode.nil AccountNode.nil,
          [⟨"DEPOSIT", 200, 500, 700⟩], [], 10000⟩, [Output.depositSuccessful 700]) := by
  norm_num [step, deposit, searchAccount, storeBalance]

theorem scenario_step3 (holder : String) :
    step ⟨AccountNode.node 101 holder 700 AccountNode.nil AccountNode.nil,
          [⟨"DEPOSIT", 200, 500, 700⟩], [], 10000⟩
        (Op.withdraw 101 800)
      = (⟨AccountNode.node 101 holder 700 AccountNode.nil AccountNode.nil,
          [⟨"DEPOSIT", 200, 500, 700⟩], [], 10000⟩, [Output.insufficientBalance]) := by
  norm_num [step, withdraw, searchAccount, storeBalance]

theorem scenario_step4 (holder : String) :
    step ⟨AccountNode.node 101 holder 700 AccountNode.nil AccountNode.nil,
          [⟨"DEPOSIT", 200, 500, 700⟩], [], 10000⟩
        (Op.deposit 101 15000)
      = (⟨AccountNode.node 101 holder 15700 AccountNode.nil AccountNode.nil,
          [⟨"DEPOSIT", 15000, 700, 15700⟩, ⟨"DEPOSIT", 200, 500, 700⟩],
          [⟨"DEPOSIT", 15000, 700, 15700⟩], 10000⟩,
         [Output.largeDepositAlert, Output.depositSuccessful 15700]) := by
  norm_num [step, deposit, searchAccount, storeBalance]

theorem scenario_step5 (holder : String) :
    step ⟨AccountNode.node 101 holder 15700 AccountNode.nil AccountNode.nil,
          [⟨"DEPOSIT", 15000, 700, 15700⟩, ⟨"DEPOSIT", 200, 500, 700⟩],
          [⟨"DEPOSIT", 15000, 700, 15700⟩], 10000⟩
        (Op.undoLastTransaction 101)
      = (⟨AccountNode.node 101 holder 700 AccountNode.nil AccountNode.nil,
          [⟨"DEPOSIT", 200, 500, 700⟩],
          [⟨"DEPOSIT", 15000, 700, 15700⟩], 10000⟩,
         [Output.transactionUndone "DEPOSIT" 15000, Output.balanceRestored 700]) := by
  simp [step, undoLastTransaction, searchAccount, storeBalance]

/-- C14. From a fresh ledger (threshold 10000), after `addAccount 101 holder 500`:
`deposit 101 200` succeeds with balance 700 and no alert; `withdraw 101 800` then prints
"Insufficient balance!" and the balance stays 700; `deposit 101 15000` then succeeds with
balance 15700, prints the alert and puts its entry in the review queue; `undoLastTransaction
101` then restores the balance to 700 and the review queue still holds the flagged entry. -/
theorem scenario_101 (holder : String) :
    BankingSystem.new.fraudThreshold = 10000
    ∧ (step (run BankingSystem.new [Op.addAccount 101 holder 500]) (Op.deposit 101 200)).2
        = [Output.depositSuccessful 700]
    ∧ balanceOf (run BankingSystem.new [Op.addAccount 101 holder 500, Op.deposit 101 200]).root
        101 = some 700
    ∧ (step (run BankingSystem.new [Op.addAccount 101 holder 500, Op.deposit 101 200])
        (Op.withdraw 101 800)).2 = [Output.insufficientBalance]
    ∧ balanceOf (run BankingSystem.new [Op.addAccount 101 holder 500, Op.deposit 101 200,
        Op.withdraw 101 800]).root 101 = some 700
    ∧ (step (run BankingSystem.new [Op.addAccount 101 holder 500, Op.deposit 101 200,
        Op.withdraw 101 800]) (Op.deposit 101 15000)).2
        = [Output.largeDepositAlert, Output.depositSuccessful 15700]
    ∧ balanceOf (run BankingSystem.new [Op.addAccount 101 holder 500, Op.deposit 101 200,
        Op.withdraw 101 800, Op.deposit 101 15000]).root 101 = some 15700
    ∧ (run BankingSystem.new [Op.addAccount 101 holder 500, Op.deposit 101 200,
        Op.withdraw 101 800, Op.deposit 101 15000]).fraudQueue
        = [⟨"DEPOSIT", 15000, 700, 15700⟩]
    ∧ (step (run BankingSystem.new [Op.addAccount 101 holder 500, Op.deposit 101 200,
        Op.withdraw 101 800, Op.deposit 101 15000]) (Op.undoLastTransaction 101)).2
        = [Output.transactionUndone "DEPOSIT" 15000, Output.balanceRestored 700]
    ∧ balanceOf (run BankingSystem.new [Op.addAccount 101 holder 500, Op.deposit 101 200,
        Op.withdraw 101 800, Op.deposit 101 15000, Op.undoLastTransaction 101]).root 101
        = some 700
    ∧ (run BankingSystem.new [Op.addAccount 101 holder 500, Op.deposit 101 200,
        Op.withdraw 101 800, Op.deposit 101 15000, Op.undoLastTransaction 101]).fraudQueue
        = [⟨"DEPOSIT", 15000, 700, 15700⟩]
    ∧ (displayFraudQueue (run BankingSystem.new [Op.addAccount 101 holder 500,
        Op.deposit 101 200, Op.withdraw 101 800, Op.deposit 101 15000,
        Op.undoLastTransaction 101])).2
        = [Output.fraudQueueHeader, Output.fraudQueueLine 1 "DEPOSIT" 15000 700 15700] := by
  simp only [run, scenario_step1, scenario_step2, scenario_step3, scenario_step4,
    scenario_step5]
  refine ⟨rfl, ?_, ?_, ?_, ?_, ?_, ?_, ?_, ?_, ?_, ?_, ?_⟩ <;> trivial

/-! ## Read-only queries -/

/-- C15. `checkBalance`, `displayAllAccounts` and `displayFraudQueue` return the state they
were given (index, balances, undo log, review queue, threshold), so calling any of them twice
in a row prints the same lines; the entries that `displayFraudQueue` prints are the entries of
the review queue, all of them, oldest first, and the stored queue is left as it is. -/
theorem queries_read_only (s : BankingSystem) (n : Int) :
    (checkBalance s n).1 = s
    ∧ (displayAllAccounts s).1 = s
    ∧ (displayFraudQueue s).1 = s
    ∧ (checkBalance (checkBalance s n).1 n).2 = (checkBalance s n).2
    ∧ (displayAllAccounts (displayAllAccounts s).1).2 = (displayAllAccounts s).2
    ∧ (displayFraudQueue (displayFraudQueue s).1).2 = (displayFraudQueue s).2
    ∧ fraudQueueEntries (displayFraudQueue s).2 = s.fraudQueue
    ∧ (displayFraudQueue s).1.fraudQueue = s.fraudQueue := by
  refine ⟨checkBalance_state s n, displayAllAccounts_state s, displayFraudQueue_state s,
    ?_, ?_, ?_, fraudQueueEntries_displayFraudQueue s, ?_⟩
  · rw [checkBalance_state]
  · rw [displayAllAccounts_state]
  · rw [displayFraudQueue_state]
  · rw [displayFraudQueue_state]

/-! ## Undo is global -/

/-- C17. The binary-search ordering property holds for the empty index; `insertAccount` on a
tree that satisfies it returns a tree that satisfies it; deposit, withdraw and
undoLastTransaction leave the shape of the tree, its account numbers and its holders as they
are (only balances change); so the property holds in every state reachable from the fresh
ledger by any sequence of calls. -/
theorem ordering_invariant :
    BankingSystem.new.root.ordered
    ∧ (∀ t k h b, t.ordered → (insertAccount t k h b).1.ordered)
    ∧ (∀ s n a, (deposit s n a).1.root.skeleton = s.root.skeleton
        ∧ (withdraw s n a).1.root.skeleton = s.root.skeleton
        ∧ (undoLastTransaction s n).1.root.skeleton = s.root.skeleton
        ∧ (deposit s n a).1.root.keys = s.root.keys
        ∧ (withdraw s n a).1.root.keys = s.root.keys
        ∧ (undoLastTransaction s n).1.root.keys = s.root.keys)
    ∧ (∀ s op, s.root.ordered → (step s op).1.root.ordered)
    ∧ (∀ ops, (run BankingSystem.new ops).root.ordered) := by
  refine ⟨trivial, ordered_insertAccount, fun s n a => ⟨?_, ?_, ?_, ?_, ?_, ?_⟩, ordered_step,
    fun ops => ordered_run ops _ trivial⟩
  · rcases deposit_root s n a with h | ⟨v, h⟩ <;> rw [h]
    exact skeleton_storeBalance _ _ _
  · rcases withdraw_root s n a with h | ⟨v, h⟩ <;> rw [h]
    exact skeleton_storeBalance _ _ _
  · rcases undo_root s n with h | ⟨v, h⟩ <;> rw [h]
    exact skeleton_storeBalance _ _ _
  · rcases deposit_root s n a with h | ⟨v, h⟩ <;> rw [h]
    exact keys_storeBalance _ _ _
  · rcases withdraw_root s n a with h | ⟨v, h⟩ <;> rw [h]
    exact keys_storeBalance _ _ _
  · rcases undo_root s n with h | ⟨v, h⟩ <;> rw [h]
    exact keys_storeBalance _ _ _

/-- Witness of C17: the index of the sample ledger is ordered, and stays so after inserting
account 120 and after a deposit on account 50. -/
theorem ordering_invariant_witness :
    sampleLedger.root.ordered
      ∧ (insertAccount sampleLedger.root 120 "Dee" 1).1.ordered
      ∧ (step sampleLedger (Op.deposit 50 10)).1.root.ordered :=
  have ho : sampleLedger.root.ordered := by decide
  ⟨ho, ordering_invariant.2.1 sampleLedger.root 120 "Dee" 1 ho,
   ordering_invariant.2.2.2.1 sampleLedger (Op.deposit 50 10) ho⟩

/-! ## Frame of the balance-changing calls -/

/-- C19. In every state (reachable or not), `deposit n a`, `withdraw n a` and
`undoLastTransaction n` touch only the balance of account `n`: for every `m ≠ n` the account
found for `m` (number, holder, balance) is the same after the call as before, the account
numbers in the index are the same, and the number and holder found for `n` are the same.
`addAccount` (of a new number or not) leaves every existing account as it is. -/
theorem frame_other_accounts (s : BankingSystem) (n : Int) (a : ℚ) :
    (∀ m, m ≠ n →
        findAccount (deposit s n a).1.root m = findAccount s.root m
        ∧ findAccount (withdraw s n a).1.root m = findAccount s.root m
        ∧ findAccount (undoLastTransaction s n).1.root m = findAccount s.root m)
    ∧ ((deposit s n a).1.root.keys = s.root.keys
        ∧ (withdraw s n a).1.root.keys = s.root.keys
        ∧ (undoLastTransaction s n).1.root.keys = s.root.keys)
    ∧ ((findAccount (deposit s n a).1.root n).map (fun r => (r.1, r.2.1))
          = (findAccount s.root n).map (fun r => (r.1, r.2.1))
        ∧ (findAccount (withdraw s n a).1.root n).map (fun r => (r.1, r.2.1))
          = (findAccount s.root n).map (fun r => (r.1, r.2.1))
        ∧ (findAccount (undoLastTransaction s n).1.root n).map (fun r => (r.1, r.2.1))
          = (findAccount s.root n).map (fun r => (r.1, r.2.1)))
    ∧ (∀ k h b j, findAccount s.root j ≠ none →
        findAccount (addAccount s k h b).1.root j = findAccount s.root j) := by
  refine ⟨fun m hm => ⟨?_, ?_, ?_⟩, ⟨?_, ?_, ?_⟩, ⟨?_, ?_, ?_⟩,
    fun k h b j hj => findAccount_addAccount_of_present s k h b j hj⟩
  · rcases deposit_root s n a with h | ⟨v, h⟩ <;> rw [h]
    exact findAccount_storeBalance_other _ _ _ _ hm
  · rcases withdraw_root s n a with h | ⟨v, h⟩ <;> rw [h]
    exact findAccount_storeBalance_other _ _ _ _ hm
  · rcases undo_root s n with h | ⟨v, h⟩ <;> rw [h]
    exact findAccount_storeBalance_other _ _ _ _ hm
  · rcases deposit_root s n a with h | ⟨v, h⟩ <;> rw [h]
    exact keys_storeBalance _ _ _
  · rcases withdraw_root s n a with h | ⟨v, h⟩ <;> rw [h]
    exact keys_storeBalance _ _ _
  · rcases undo_root s n with h | ⟨v, h⟩ <;> rw [h]
    exact keys_storeBalance _ _ _
  · rcases deposit_root s n a with h | ⟨v, h⟩ <;> rw [h]
    exact findAccount_holder_storeBalance _ _ _
  · rcases withdraw_root s n a with h | ⟨v, h⟩ <;> rw [h]
    exact findAccount_holder_storeBalance _ _ _
  · rcases undo_root s n with h | ⟨v, h⟩ <;> rw [h]
    exact findAccount_holder_storeBalance _ _ _

/-- Witness of C19 on the sample ledger: a deposit on account 101 leaves account 50 as it is,
and adding account 7 leaves account 150 as it is. -/
theorem frame_other_accounts_witness :
    (50 : Int) ≠ 101
      ∧ findAccount (deposit sampleLedger 101 200).1.root 50 = some (50, "Bob", -5)
      ∧ findAccount sampleLedger.root 150 ≠ none
      ∧ findAccount (addAccount sampleLedger 7 "Dee" 3).1.root 150 = some (150, "Cy", 20000) :=
  have hf : findAccount sampleLedger.root 150 ≠ none := by
    simp [show findAccount sampleLedger.root 150 = some (150, "Cy", 20000) from rfl]
  ⟨by decide,
   (((frame_other_accounts sampleLedger 101 200).1 50 (by decide)).1).trans rfl,
   hf,
   ((frame_other_accounts sampleLedger 101 200).2.2.2 7 "Dee" 3 150 hf).trans rfl⟩

/-! ## Balances stay non-negative -/

/-- C20. If every `addAccount` call has a non-negative initial balance, then in every state
reached from the fresh ledger by any sequence of calls (addAccount, deposit, withdraw,
undoLastTransaction with any account argument, setFraudThreshold, and the queries), every
balance stored in the index is non-negative, so is the balance found for any account number,
and so is every `balanceBefore` stored in the undo log. -/
theorem balances_nonnegative (ops : List Op) (hops : ∀ op ∈ ops, op.nonnegInitialBalance) :
    (∀ x ∈ (run BankingSystem.new ops).root.balances, 0 ≤ x)
    ∧ (∀ n P, balanceOf (run BankingSystem.new ops).root n = some P → 0 ≤ P)
    ∧ (∀ e ∈ (run BankingSystem.new ops).transactionHistory, 0 ≤ e.balanceBefore) := by
  have h := nonneg_run ops BankingSystem.new hops
    (fun x hx => by simp [BankingSystem.new, AccountNode.balances] at hx)
    (fun e he => by simp [BankingSystem.new] at he)
  exact ⟨h.1, fun n P hP => h.1 P (mem_balances_of_balanceOf _ n P hP), h.2⟩

/-- Witness of C20: the sample session opens accounts with balances 100 and 0 and undoes a
deposit of account 2 on account 1 and a withdrawal of account 1 on account 2. -/
theorem balances_nonnegative_witness :
    (∀ op ∈ sampleSession, op.nonnegInitialBalance)
      ∧ (∀ x ∈ (run BankingSystem.new sampleSession).root.balances, 0 ≤ x)
      ∧ (∀ e ∈ (run BankingSystem.new sampleSession).transactionHistory, 0 ≤ e.balanceBefore) :=
  have h : ∀ op ∈ sampleSession, op.nonnegInitialBalance := by
    simp [sampleSession, Op.nonnegInitialBalance]
  ⟨h, (balances_nonnegative sampleSession h).1, (balances_nonnegative sampleSession h).2.2⟩

/-! ## The undo log is last-in-first-out -/

/-- C18. Let account `n` exist with balance `P` and let the undo log be `L`.  After any
sequence of deposit and withdraw calls on `n`, of which `k` succeed, the undo log is `L` with
`k` new entries on top; `k` consecutive `undoLastTransaction n` calls all succeed, the `i`-th
printing the type and amount of the `i`-th most recent of these entries and its
`balanceBefore`; afterwards the balance of `n` is `P` (the whole index is as it was) and the
undo log is `L`. -/
theorem undo_log_lifo (s : BankingSystem) (n : Int) (P : ℚ) (calls : List (Bool × ℚ))
    (hP : balanceOf s.root n = some P) :
    ∃ entries : List Transaction,
      entries.length = successCount s (accountCalls n calls)
      ∧ (run s (accountCalls n calls)).transactionHistory = entries ++ s.transactionHistory
      ∧ (undoTimes (run s (accountCalls n calls)) n (successCount s (accountCalls n calls))).2
          = entries.map (fun t =>
              [Output.transactionUndone t.type t.amount, Output.balanceRestored t.balanceBefore])
      ∧ balanceOf
          (undoTimes (run s (accountCalls n calls)) n
            (successCount s (accountCalls n calls))).1.root n = some P
      ∧ (undoTimes (run s (accountCalls n calls)) n
          (successCount s (accountCalls n calls))).1.root = s.root
      ∧ (undoTimes (run s (accountCalls n calls)) n
          (successCount s (accountCalls n calls))).1.transactionHistory
          = s.transactionHistory := by
  induction calls generalizing s P with
  | nil => exact ⟨[], rfl, rfl, rfl, hP, rfl, rfl⟩
  | cons c calls ih =>
    obtain ⟨d, a⟩ := c
    cases d with
    | true =>
      have hops : accountCalls n ((true, a) :: calls)
          = Op.deposit n a :: accountCalls n calls := rfl
      rw [hops]
      rcases deposit_cases s n a with ⟨_, h⟩ | ⟨_, _, h⟩ | ⟨P0, hP0, ha, h⟩
      · have hc : successCount s (Op.deposit n a :: accountCalls n calls)
            = successCount s (accountCalls n calls) := by
          simp [successCount, step, h, Output.isFailure]
        have hr : run s (Op.deposit n a :: accountCalls n calls)
            = run s (accountCalls n calls) := by
          simp only [run, step, h]
        rw [hc, hr]
        exact ih s P hP
      · have hc : successCount s (Op.deposit n a :: accountCalls n calls)
            = successCount s (accountCalls n calls) := by
          simp [successCount, step, h, Output.isFailure]
        have hr : run s (Op.deposit n a :: accountCalls n calls)
            = run s (accountCalls n calls) := by
          simp only [run, step, h]
        rw [hc, hr]
        exact ih s P hP
      · have hPP : P0 = P := by rw [hP] at hP0; exact (Option.some.inj hP0).symm
        subst hPP
        have hany : ((if a > s.fraudThreshold then [Output.largeDepositAlert] else [])
            ++ [Output.depositSuccessful (P0 + a)]).any Output.isFailure = false := by
          split_ifs <;> simp [Output.isFailure]
        have hc : successCount s (Op.deposit n a :: accountCalls n calls)
            = successCount (deposit s n a).1 (accountCalls n calls) + 1 := by
          simp only [successCount, step, h, hany, Bool.false_eq_true, if_false]
          exact Nat.add_comm _ _
        have hr : run s (Op.deposit n a :: accountCalls n calls)
            = run (deposit s n a).1 (accountCalls n calls) := rfl
        rw [hc, hr]
        exact undoTimes_extend s (deposit s n a).1 _ n P0 (P0 + a) ⟨"DEPOSIT", a, P0, P0 + a⟩ _
          hP (by rw [h]) (by rw [h]) rfl
          (ih _ (P0 + a) (by rw [h]; exact balanceOf_storeBalance_same _ _ _ P0 hP))
    | false =>
      have hops : accountCalls n ((false, a) :: calls)
          = Op.withdraw n a :: accountCalls n calls := rfl
      rw [hops]
      have hfail : ∀ o, withdraw s n a = (s, [o]) → o.isFailure = true →
          ∃ entries : List Transaction,
            entries.length = successCount s (Op.withdraw n a :: accountCalls n calls)
            ∧ (run s (Op.withdraw n a :: accountCalls n calls)).transactionHistory
                = entries ++ s.transactionHistory
            ∧ (undoTimes (run s (Op.withdraw n a :: accountCalls n calls)) n
                (successCount s (Op.withdraw n a :: accountCalls n calls))).2
                = entries.map (fun t =>
                    [Output.transactionUndone t.type t.amount,
                     Output.balanceRestored t.balanceBefore])
            ∧ balanceOf
                (undoTimes (run s (Op.withdraw n a :: accountCalls n calls)) n
                  (successCount s (Op.withdraw n a :: accountCalls n calls))).1.root n = some P
            ∧ (undoTimes (run s (Op.withdraw n a :: accountCalls n calls)) n
                (successCount s (Op.withdraw n a :: accountCalls n calls))).1.root = s.root
            ∧ (undoTimes (run s (Op.withdraw n a :: accountCalls n calls)) n
                (successCount s (Op.withdraw n a :: accountCalls n calls))).1.transactionHistory
                = s.transactionHistory := by
        intro o h ho
        have hc : successCount s (Op.withdraw n a :: accountCalls n calls)
            = successCount s (accountCalls n calls) := by
          simp [successCount, step, h, ho]
        have hr : run s (Op.withdraw n a :: accountCalls n calls)
            = run s (accountCalls n calls) := by
          simp only [run, step, h]
        rw [hc, hr]
        exact ih s P hP
      rcases withdraw_cases s n a with
        ⟨_, h⟩ | ⟨_, _, h⟩ | ⟨P0, _, _, _, h⟩ | ⟨P0, hP0, ha, hle, h⟩
      · exact hfail _ h rfl
      · exact hfail _ h rfl
      · exact hfail _ h rfl
      · have hPP : P0 = P := by rw [hP] at hP0; exact (Option.some.inj hP0).symm
        subst hPP
        have hany : ((if a > s.fraudThreshold then [Output.largeWithdrawalAlert] else [])
            ++ [Output.withdrawalSuccessful (P0 - a)]).any Output.isFailure = false := by
          split_ifs <;> simp [Output.isFailure]
        have hc : successCount s (Op.withdraw n a :: accountCalls n calls)
            = successCount (withdraw s n a).1 (accountCalls n calls) + 1 := by
          simp only [successCount, step, h, hany, Bool.false_eq_true, if_false]
          exact Nat.add_comm _ _
        have hr : run s (Op.withdraw n a :: accountCalls n calls)
            = run (withdraw s n a).1 (accountCalls n calls) := rfl
        rw [hc, hr]
        exact undoTimes_extend s (withdraw s n a).1 _ n P0 (P0 - a)
          ⟨"WITHDRAW", a, P0, P0 - a⟩ _ hP (by rw [h]) (by rw [h]) rfl
          (ih _ (P0 - a) (by rw [h]; exact balanceOf_storeBalance_same _ _ _ P0 hP))

/-- Witness of C18 on the sample ledger: on account 101 (balance 500), a deposit of 200, a
rejected withdrawal of 800 and a withdrawal of 100, then as many undo calls as calls
succeeded. -/
theorem undo_log_lifo_witness :
    balanceOf sampleLedger.root 101 = some 500
      ∧ ∃ entries : List Transaction,
          entries.length
              = successCount sampleLedger (accountCalls 101 [(true, 200), (false, 800), (false, 100)])
          ∧ (undoTimes (run sampleLedger
                (accountCalls 101 [(true, 200), (false, 800), (false, 100)])) 101
              (successCount sampleLedger
                (accountCalls 101 [(true, 200), (false, 800), (false, 100)]))).1.root
              = sampleLedger.root :=
  ⟨rfl,
   (undo_log_lifo sampleLedger 101 500 [(true, 200), (false, 800), (false, 100)] rfl).imp
     (fun _ h => ⟨h.1, h.2.2.2.2.1⟩)⟩

end Bank
